import Mathlib

/-!
Verification of the pose-brush core (`sculpt_pose.cc`) against its design
specification.  The C++ code is shallowly embedded over exact real
arithmetic: `float3` becomes `Vec3` over `ℝ`, quaternions are represented
semantically by the rotation maps they induce, dense per-vertex arrays
become functions `Nat → ℝ`, and the external sculpt/PBVH collaborators
(adjacency, visibility, symmetry predicates, flood-fill traversal, brush
curves) are passed as explicit capability parameters, following the spec's
external-interface section.  The unbounded `while` loop of the factor
grower is embedded with an explicit fuel parameter; all statements about
the loop are fuel-generic.
-/

noncomputable section

/-- Exact-real embedding of Blender's `float3`. -/
structure Vec3 where
  x : ℝ
  y : ℝ
  z : ℝ

instance : Zero Vec3 := ⟨⟨0, 0, 0⟩⟩

instance : Add Vec3 := ⟨fun a b => ⟨a.x + b.x, a.y + b.y, a.z + b.z⟩⟩

instance : Sub Vec3 := ⟨fun a b => ⟨a.x - b.x, a.y - b.y, a.z - b.z⟩⟩

instance : Neg Vec3 := ⟨fun a => ⟨-a.x, -a.y, -a.z⟩⟩

instance : SMul ℝ Vec3 := ⟨fun c a => ⟨c * a.x, c * a.y, c * a.z⟩⟩

instance : DecidableEq Vec3 := fun a b =>
  decidable_of_iff (a.x = b.x ∧ a.y = b.y ∧ a.z = b.z) (by cases a; cases b; simp)

/-- `dot_v3v3`. -/
def dot3 (a b : Vec3) : ℝ := a.x * b.x + a.y * b.y + a.z * b.z

/-- `cross_v3_v3v3`. -/
def cross3 (a b : Vec3) : Vec3 :=
  ⟨a.y * b.z - a.z * b.y, a.z * b.x - a.x * b.z, a.x * b.y - a.y * b.x⟩

/-- `len_v3`. -/
def norm3 (v : Vec3) : ℝ := Real.sqrt (dot3 v v)

/-- `math::distance`. -/
def dist3 (a b : Vec3) : ℝ := norm3 (a - b)

/-- `math::normalize`.  Note that with Lean's `(0 : ℝ)⁻¹ = 0` convention the
zero vector normalizes to the zero vector, exactly like BLI's guarded
`normalize_v3`. -/
def normalize3 (v : Vec3) : Vec3 := (norm3 v)⁻¹ • v

/-- Modelled from the spec: BLI's `ortho_v3_v3` (not part of this
repository's sources) returns some vector orthogonal to its input; we pick a
deterministic cross product with a coordinate axis. -/
def orthoVec (v : Vec3) : Vec3 :=
  if cross3 v ⟨1, 0, 0⟩ = 0 then cross3 v ⟨0, 1, 0⟩ else cross3 v ⟨1, 0, 0⟩

/-- Rodrigues rotation about `axis` given the cosine and sine of the angle. -/
def rodrigues (axis : Vec3) (cosA sinA : ℝ) (p : Vec3) : Vec3 :=
  cosA • p + sinA • cross3 axis p + ((1 - cosA) * dot3 axis p) • axis

/-- Modelled from the spec: BLI's `rotation_between_vecs_to_quat` (not part
of this repository's sources) "calculates the rotation to orientate the
segment to the target from its initial state".  Quaternions are modelled
semantically as the rotation maps they induce; for unit vectors the cosine
of the angle between them is their dot product and the sine is the length of
their cross product, which gives the Rodrigues form below.  The two
degenerate branches (parallel and antiparallel inputs) mirror BLI's
identity-quaternion and half-turn-about-an-orthogonal-axis fallbacks. -/
def rotation_between_vecs (v1 v2 : Vec3) : Vec3 → Vec3 :=
  if cross3 v1 v2 = 0 then
    if 0 < dot3 v1 v2 then id
    else rodrigues (normalize3 (orthoVec v1)) (-1) 0
  else rodrigues (normalize3 (cross3 v1 v2)) (dot3 v1 v2) (norm3 (cross3 v1 v2))

/-- Modelled from the spec: BLI's `axis_angle_normalized_to_quat`, as the
rotation map it induces (Rodrigues form). -/
def rotAxisAngle (axis : Vec3) (angle : ℝ) : Vec3 → Vec3 :=
  rodrigues axis (Real.cos angle) (Real.sin angle)

/-- Affine 4×4 matrix in Blender's convention: `cx`, `cy`, `cz` are the
three basis columns `m[0] m[1] m[2]` and `w` is the translation column
`m[3]`; the implicit last row is `0 0 0 1` (all matrices built by this file
are affine). -/
structure Mat4 where
  cx : Vec3
  cy : Vec3
  cz : Vec3
  w : Vec3

/-- `unit_m4`. -/
def unit_m4 : Mat4 := ⟨⟨1, 0, 0⟩, ⟨0, 1, 0⟩, ⟨0, 0, 1⟩, 0⟩

/-- Application of the linear (rotation/scale) part of an affine matrix. -/
def linApply (m : Mat4) (v : Vec3) : Vec3 := v.x • m.cx + v.y • m.cy + v.z • m.cz

/-- `math::transform_point`. -/
def transformPoint (m : Mat4) (v : Vec3) : Vec3 := linApply m v + m.w

/-- `translate_m4`: post-multiplies by a translation, i.e. adds the linear
image of `t` to the translation column. -/
def translate_m4 (m : Mat4) (t : Vec3) : Mat4 := ⟨m.cx, m.cy, m.cz, m.w + linApply m t⟩

/-- `quat_to_mat4` on the semantic rotation-map model of quaternions: the
columns are the images of the coordinate axes. -/
def quat_to_mat4 (r : Vec3 → Vec3) : Mat4 := ⟨r ⟨1, 0, 0⟩, r ⟨0, 1, 0⟩, r ⟨0, 0, 1⟩, 0⟩

/-- The per-axis `mul_v3_fl(m[i], scale[i])` loop of `do_pose_brush`:
scales each basis column by the segment's per-axis scale. -/
def scaleMatAxes (m : Mat4) (s : Vec3) : Mat4 := ⟨s.x • m.cx, s.y • m.cy, s.z • m.cz, m.w⟩

/-- `mul_m4_m4_post(a, b)`: the composite transform `a ∘ b`. -/
def matMulPost (a b : Mat4) : Mat4 :=
  ⟨linApply a b.cx, linApply a b.cy, linApply a b.cz, linApply a b.w + a.w⟩

/-- Determinant of the linear part. -/
def det3 (m : Mat4) : ℝ := dot3 m.cx (cross3 m.cy m.cz)

/-- `invert_m4_m4` restricted to affine matrices: adjugate inverse of the
linear part together with the corresponding inverse translation.  (A
singular matrix yields garbage via `(0 : ℝ)⁻¹ = 0`, matching the undefined
result of the C code there.) -/
def invert_m4 (m : Mat4) : Mat4 :=
  let r1 := cross3 m.cy m.cz
  let r2 := cross3 m.cz m.cx
  let r3 := cross3 m.cx m.cy
  let icx : Vec3 := (det3 m)⁻¹ • ⟨r1.x, r2.x, r3.x⟩
  let icy : Vec3 := (det3 m)⁻¹ • ⟨r1.y, r2.y, r3.y⟩
  let icz : Vec3 := (det3 m)⁻¹ • ⟨r1.z, r2.z, r3.z⟩
  ⟨icx, icy, icz, -(linApply ⟨icx, icy, icz, 0⟩ m.w)⟩

/-- Modelled from the spec (data-model section): `IKChainSegment`, whose
defining header is not among the given sources; the fields are exactly the
ones `sculpt_pose.cc` reads and writes.  `rot` is the quaternion delta in
its semantic rotation-map representation, `weights` is the dense per-vertex
weight array, and the three matrix families are indexed by the symmetry
area. -/
structure IKChainSegment where
  orig : Vec3
  head : Vec3
  initial_orig : Vec3
  initial_head : Vec3
  rot : Vec3 → Vec3
  scale : Vec3
  len : ℝ
  weights : Nat → ℝ
  trans_mat : Nat → Mat4
  pivot_mat : Nat → Mat4
  pivot_mat_inv : Nat → Mat4

/-- A freshly allocated segment as produced by `ik_chain_new` (zeroed
weights; the kinematic fields are not yet meaningful). -/
def emptySegment : IKChainSegment :=
  ⟨0, 0, 0, 0, id, 0, 0, fun _ => 0, fun _ => unit_m4, fun _ => unit_m4, fun _ => unit_m4⟩

instance : Inhabited IKChainSegment := ⟨emptySegment⟩

/-- Modelled from the spec (data-model section): `IKChain`. -/
structure IKChain where
  segments : List IKChainSegment
  grab_delta_offset : Vec3

instance : Inhabited IKChain := ⟨⟨[], 0⟩⟩

/-- The body of the per-segment loop of `solve_ik_chain` (lines 54-73):
rotation delta from the initial orientation to the orientation towards the
running target, new head `orig + dir * len`, and the origin translated by
`target - new_head`. -/
def solveStep (s : IKChainSegment) (target : Vec3) : IKChainSegment :=
  { s with
    rot := rotation_between_vecs (normalize3 (s.initial_head - s.initial_orig))
      (normalize3 (target - s.orig))
    head := s.orig + s.len • normalize3 (target - s.orig)
    orig := s.orig + (target - (s.orig + s.len • normalize3 (target - s.orig))) }

/-- The segment loop of `solve_ik_chain`: each solved segment's new origin
becomes the target fed to the next segment. -/
def solveSegments : List IKChainSegment → Vec3 → List IKChainSegment
  | [], _ => []
  | s :: rest, target => solveStep s target :: solveSegments rest (solveStep s target).orig

/-- The running target that the segment loop of `solve_ik_chain` feeds to
segment `i` (the initial target for `i = 0`, afterwards the previous
segment's solved origin). -/
def targetAt : List IKChainSegment → Vec3 → Nat → Vec3
  | _, target, 0 => target
  | [], target, _ + 1 => target
  | s :: rest, target, i + 1 => targetAt rest (solveStep s target).orig i

/-- `solve_ik_chain` (lines 46-83).  With the anchor flag set, every
solved segment is translated by `last.initial_orig - last.orig` so that the
last segment's origin stays pinned.  (The C code indexes `segments.last()`
unconditionally; the empty-chain case is undefined behaviour there and is
mapped to a no-op here.) -/
def solve_ik_chain (chain : IKChain) (initial_target : Vec3) (use_anchor : Bool) : IKChain :=
  if use_anchor then
    match (solveSegments chain.segments initial_target).getLast? with
    | none => { chain with segments := solveSegments chain.segments initial_target }
    | some last =>
        { chain with
          segments := (solveSegments chain.segments initial_target).map fun s =>
            { s with
              orig := s.orig + (last.initial_orig - last.orig)
              head := s.head + (last.initial_orig - last.orig) } }
  else { chain with segments := solveSegments chain.segments initial_target }

/-- `solve_translate_chain` (lines 106-116). -/
def solve_translate_chain (chain : IKChain) (delta : Vec3) : IKChain :=
  { chain with
    segments := chain.segments.map fun s =>
      { s with head := s.initial_head + delta, orig := s.initial_orig + delta, rot := id } }

/-- `solve_scale_chain` (lines 118-124). -/
def solve_scale_chain (chain : IKChain) (scale : Vec3) : IKChain :=
  { chain with segments := chain.segments.map fun s => { s with scale := scale } }

/-- `brush.pose_deform_type`. -/
inductive BrushPoseDeformType
  | rotate_twist
  | scale_traslate
  | squash_stretch
  deriving DecidableEq

/-- `brush.deform_target`. -/
inductive BrushDeformTarget
  | geometry
  | cloth_sim
  deriving DecidableEq

/-- The brush configuration fields consumed by the pose brush code
(capability interface per the spec; the two `flag2` bits are modelled as
booleans). -/
structure Brush where
  pose_deform_type : BrushPoseDeformType
  pose_ik_segments : Nat
  pose_offset : ℝ
  deform_target : BrushDeformTarget
  lock_rotation : Bool
  ik_anchored : Bool

/-- `brush_num_effective_segments` (lines 889-901). -/
def brush_num_effective_segments (brush : Brush) : Nat :=
  if brush.pose_deform_type = BrushPoseDeformType.scale_traslate ∨
      brush.pose_deform_type = BrushPoseDeformType.squash_stretch then 1
  else brush.pose_ik_segments

/-- The stroke-cache fields consumed by the pose brush code. -/
structure StrokeCache where
  location : Vec3
  grab_delta : Vec3
  orig_grab_location : Vec3
  invert : Bool
  mirror_symmetry_pass : Nat
  initial_mouse_x : ℝ
  mouse_x : ℝ
  bstrength : ℝ
  pose_ik_chain : IKChain

/-- Modelled from the spec: BLI's `plane_from_point_normal_v3` (not part of
this repository's sources): plane coefficients `(normal, -normal·point)`. -/
def planeFromPointNormal (pt n : Vec3) : Vec3 × ℝ := (n, -dot3 n pt)

/-- Modelled from the spec: BLI's `dist_signed_to_plane_v3` (not part of
this repository's sources): signed point-plane distance, normalized by the
plane normal's length. -/
def distSignedToPlane (p : Vec3) (plane : Vec3 × ℝ) : ℝ :=
  (dot3 plane.1 p + plane.2) / norm3 plane.1

/-- `calc_scale_from_grab_delta` (lines 1293-1302). -/
def calc_scale_from_grab_delta (cache : StrokeCache) (ik_target : Vec3) : ℝ :=
  (cache.pose_ik_chain.segments.headI).len /
    ((cache.pose_ik_chain.segments.headI).len -
      distSignedToPlane ik_target
        (planeFromPointNormal (cache.pose_ik_chain.segments.headI).initial_head
          (normalize3 ((cache.pose_ik_chain.segments.headI).initial_head -
            (cache.pose_ik_chain.segments.headI).initial_orig))))

/-- `calc_squash_stretch_deform` (lines 1362-1374). -/
def calc_squash_stretch_deform (cache : StrokeCache) : IKChain :=
  solve_scale_chain cache.pose_ik_chain
    ⟨Real.sqrt (1 / calc_scale_from_grab_delta cache (cache.location + cache.grab_delta)),
      Real.sqrt (1 / calc_scale_from_grab_delta cache (cache.location + cache.grab_delta)),
      calc_scale_from_grab_delta cache (cache.location + cache.grab_delta)⟩

/-- `calc_scale_deform` (lines 1304-1319). -/
def calc_scale_deform (cache : StrokeCache) (brush : Brush) : IKChain :=
  (fun chain1 =>
    solve_scale_chain chain1
      ⟨calc_scale_from_grab_delta { cache with pose_ik_chain := chain1 }
          (cache.location + cache.grab_delta),
        calc_scale_from_grab_delta { cache with pose_ik_chain := chain1 }
          (cache.location + cache.grab_delta),
        calc_scale_from_grab_delta { cache with pose_ik_chain := chain1 }
          (cache.location + cache.grab_delta)⟩)
    (if brush.lock_rotation then cache.pose_ik_chain
     else solve_ik_chain cache.pose_ik_chain (cache.location + cache.grab_delta) brush.ik_anchored)

/-- `sculpt_pose_do_translate_deform` (lines 1285-1290). -/
def do_translate_deform (cache : StrokeCache) : IKChain :=
  solve_translate_chain cache.pose_ik_chain cache.grab_delta

/-- `calc_scale_translate_deform` (lines 1352-1360). -/
def calc_scale_translate_deform (cache : StrokeCache) (brush : Brush) : IKChain :=
  if cache.invert then do_translate_deform cache else calc_scale_deform cache brush

/-- The spec's squash/stretch scenario quantity: the grab target's signed
distance `d` along the first segment's normalized reference axis, measured
from the initial head. -/
def squashAxisDist (cache : StrokeCache) : ℝ :=
  dot3
    (normalize3 ((cache.pose_ik_chain.segments.headI).initial_head -
      (cache.pose_ik_chain.segments.headI).initial_orig))
    (cache.location + cache.grab_delta - (cache.pose_ik_chain.segments.headI).initial_head)

/-- The spec's predicted squash/stretch scale factor `length / (length - d)`. -/
def squashScaleSpec (cache : StrokeCache) : ℝ :=
  (cache.pose_ik_chain.segments.headI).len /
    ((cache.pose_ik_chain.segments.headI).len - squashAxisDist cache)

/-- Capability interface for the factor grower and the topology chain
builder, per the spec's external-interface section: vertex count, positions,
adjacency, visibility, the optional fake-neighbor bridges, the symmetry
predicates (`SCULPT_check_vertex_pivot_symmetry`,
`SCULPT_is_symmetry_iteration_valid`, `symmetry_flip` — all outside the
given sources), the nearest-vertex query, the flood-fill traversal (as the
sequence of `(to_v, is_duplicate)` visits it delivers), the fuel bound for
the grower's `while` loop, and `FLT_MAX`. -/
structure ChainCaps where
  totvert : Nat
  position : Nat → Vec3
  neighbors : Nat → List Nat
  visible : Nat → Bool
  useFakeNeighbors : Bool
  fakeNeighbor : Nat → Option Nat
  pivotSymmOk : Vec3 → Vec3 → Bool
  symm : Nat
  symmIterValid : Nat → Bool
  symmetryFlip : Nat → Vec3 → Vec3
  nearestVert : Nat
  floodEvents : List (Nat × Bool)
  growFuel : Nat
  fltMax : ℝ

/-- The adjacency neighbors of a vertex, extended by the fake-neighbor
link exactly when fake neighbors are installed (`add_fake_neighbors`,
lines 332-341). -/
def neighborsOf (caps : ChainCaps) (v : Nat) : List Nat :=
  caps.neighbors v ++ (if caps.useFakeNeighbors then (caps.fakeNeighbor v).toList else [])

/-- The `max` accumulation of `grow_factors_mesh` (lines 371-374): the
maximum of the previous-iteration field over the vertex's neighbors,
folded from the float literal `0.0f`. -/
def neighborMax (caps : ChainCaps) (prev : Nat → ℝ) (v : Nat) : ℝ :=
  ((neighborsOf caps v).map prev).foldl max 0

/-- The visible vertices the grower iterates over
(`hide::node_visible_verts` over all leaf nodes). -/
def visibleVerts (caps : ChainCaps) : List Nat :=
  (List.range caps.totvert).filter caps.visible

/-- `PoseGrowFactorData` (lines 315-325): associative centroid accumulator. -/
structure PoseGrowFactorData where
  pos_avg : Vec3
  pos_count : Nat

/-- The per-vertex body of `grow_factors_mesh` (lines 368-385): if the
neighbor maximum of the snapshot field exceeds the snapshot value at the
vertex, the live field is updated to that maximum and, if the vertex passes
the pivot-symmetry test against the target, it joins the centroid
accumulator. -/
def growStep (caps : ChainCaps) (target : Vec3) (prev : Nat → ℝ)
    (st : (Nat → ℝ) × PoseGrowFactorData) (vert : Nat) : (Nat → ℝ) × PoseGrowFactorData :=
  if neighborMax caps prev vert > prev vert then
    (Function.update st.1 vert (neighborMax caps prev vert),
      if caps.pivotSymmOk (caps.position vert) target then
        ⟨st.2.pos_avg + caps.position vert, st.2.pos_count + 1⟩
      else st.2)
  else st

/-- One ring of the factor grower: `prev_mask.copy_from(pose_factor)`
followed by `grow_factors_mesh` over every visible vertex (the parallel
reduction over leaf nodes is embedded as its sequential fold, its join
being associative and commutative per the spec). -/
def growIteration (caps : ChainCaps) (target : Vec3) (prev : Nat → ℝ) :
    (Nat → ℝ) × PoseGrowFactorData :=
  (visibleVerts caps).foldl (growStep caps target prev) (prev, ⟨0, 0⟩)

/-- `gftd.pos_avg /= float(gftd.pos_count)`. -/
def centroidOf (g : PoseGrowFactorData) : Vec3 := ((g.pos_count : ℝ))⁻¹ • g.pos_avg

/-- The `while (grow_next_iteration)` loop of `grow_pose_factor`
(lines 494-622), with an explicit fuel bound.  The second component of the
result is the value written through `r_pose_origin` (`none` when the loop
never wrote it).  In pose-origin mode the loop stops when the centroid's
distance to the origin stops decreasing and rolls the field back; in
target-distance mode it stops when the centroid's distance to the target
reaches `max_len`, rolls the field back and reports the centroid; if a ring
grows no symmetry-eligible vertex the loop stops at once, keeps the grown
field and reports the unmodified target. -/
def growPoseLoop (caps : ChainCaps) (poseOrigin : Option Vec3) (target : Vec3) (maxLen : ℝ) :
    Nat → ℝ → (Nat → ℝ) → Bool → (Nat → ℝ) × Option Vec3
  | 0, _, field, _ => (field, none)
  | fuel + 1, prevLen, field, wantOrigin =>
      if (growIteration caps target field).2.pos_count ≠ 0 then
        match poseOrigin with
        | some po =>
            if dist3 (centroidOf (growIteration caps target field).2) po < prevLen then
              growPoseLoop caps poseOrigin target maxLen fuel
                (dist3 (centroidOf (growIteration caps target field).2) po)
                (growIteration caps target field).1 wantOrigin
            else (field, none)
        | none =>
            if dist3 (centroidOf (growIteration caps target field).2) target < maxLen then
              growPoseLoop caps poseOrigin target maxLen fuel
                (dist3 (centroidOf (growIteration caps target field).2) target)
                (growIteration caps target field).1 wantOrigin
            else (field, if wantOrigin then some (centroidOf (growIteration caps target field).2)
                  else none)
      else ((growIteration caps target field).1, if wantOrigin then some target else none)

/-- `grow_pose_factor` (lines 478-623): runs the grow loop from
`prev_len = FLT_MAX` with the capability-provided fuel. -/
def grow_pose_factor (caps : ChainCaps) (poseOrigin : Option Vec3) (target : Vec3)
    (maxLen : ℝ) (wantOrigin : Bool) (field : Nat → ℝ) : (Nat → ℝ) × Option Vec3 :=
  growPoseLoop caps poseOrigin target maxLen caps.growFuel caps.fltMax field wantOrigin

/-- `vert_inside_brush_radius` (lines 625-639). -/
def vertInsideBrushRadius (caps : ChainCaps) (vertex br_co : Vec3) (radius : ℝ) : Prop :=
  ∃ i ∈ List.range (caps.symm + 1),
    caps.symmIterValid i = true ∧ dist3 (caps.symmetryFlip i br_co) vertex < radius

instance (caps : ChainCaps) (vertex br_co : Vec3) (radius : ℝ) :
    Decidable (vertInsideBrushRadius caps vertex br_co radius) :=
  List.decidableBEx _ _

/-- The visitor state of `topology_floodfill` (lines 645-683): the factor
field, the farthest-point fallback origin, and the centroid accumulator. -/
structure FloodAcc where
  factor : Nat → ℝ
  fallback : Vec3
  acc : Vec3
  cnt : Nat

/-- One visit of `topology_floodfill`: sets the factor of the visited
vertex to 1 (when a factor span was supplied), tracks the farthest visited
point from the initial location as fallback origin, and accumulates the
centroid over symmetry-eligible, non-duplicate vertices outside the brush
radius. -/
def topology_floodfill_step (caps : ChainCaps) (pose_initial_co : Vec3) (radius : ℝ)
    (hasFactor : Bool) (st : FloodAcc) (ev : Nat × Bool) : FloodAcc :=
  let co := caps.position ev.1
  let f1 := if hasFactor then Function.update st.factor ev.1 1 else st.factor
  let fb := if dot3 (pose_initial_co - st.fallback) (pose_initial_co - st.fallback) <
      dot3 (pose_initial_co - co) (pose_initial_co - co) then co else st.fallback
  if vertInsideBrushRadius caps co pose_initial_co radius then ⟨f1, fb, st.acc, st.cnt⟩
  else if caps.pivotSymmOk co pose_initial_co && !ev.2 then ⟨f1, fb, st.acc + co, st.cnt + 1⟩
  else ⟨f1, fb, st.acc, st.cnt⟩

/-- `calc_pose_data` (lines 801-853): flood fill from the active vertex,
centroid (or farthest-point fallback) origin, outward origin offset, and
the optional initial grow of the factors in pose-origin mode.  Returns the
computed pose origin and the final factor field. -/
def calc_pose_data (caps : ChainCaps) (initial_location : Vec3) (radius pose_offset : ℝ)
    (hasFactor : Bool) (factor : Nat → ℝ) : Vec3 × (Nat → ℝ) :=
  let st := caps.floodEvents.foldl
    (topology_floodfill_step caps initial_location radius hasFactor)
    ⟨factor, initial_location, 0, 0⟩
  let pose_origin0 := if 0 < st.cnt then ((st.cnt : ℝ))⁻¹ • st.acc else st.fallback
  let pose_origin := pose_origin0 +
    (radius * pose_offset) • normalize3 (pose_origin0 - initial_location)
  if pose_offset ≠ 0 ∧ hasFactor = true then
    (pose_origin, (grow_pose_factor caps (some pose_origin) pose_origin 0 false st.factor).1)
  else (pose_origin, st.factor)

/-- The `drop_front(1)` segment loop of `pose_ik_chain_init_topology`
(lines 954-974): each further segment origin comes from a target-distance
grow of the factors, and its weights are the difference between the grown
field and the previous cumulative field.  (When the grow loop runs out of
fuel without writing the origin out-parameter, the segment origin is left
at its zero-initialized value, mirroring the C code's never-written
out-parameter.) -/
def topoTail (caps : ChainCaps) (maxLen : ℝ) :
    Nat → Vec3 → (Nat → ℝ) → List IKChainSegment
  | 0, _, _ => []
  | k + 1, target, gPrev =>
      { emptySegment with
        orig := (grow_pose_factor caps none target maxLen true gPrev).2.getD 0,
        weights := fun j => (grow_pose_factor caps none target maxLen true gPrev).1 j - gPrev j } ::
      topoTail caps maxLen k ((grow_pose_factor caps none target maxLen true gPrev).2.getD 0)
        (grow_pose_factor caps none target maxLen true gPrev).1

/-- `ik_chain_origin_heads_init` (lines 866-887): link consecutive
segments (each head is the previous segment's origin, the first head is the
initial location), freeze the initial pose, fix the reference length and
reset the scale. -/
def headsInit : Vec3 → List IKChainSegment → List IKChainSegment
  | _, [] => []
  | prevOrig, s :: rest =>
      { s with
        orig := s.orig, initial_orig := s.orig, head := prevOrig, initial_head := prevOrig,
        len := dist3 prevOrig s.orig, scale := ⟨1, 1, 1⟩ } :: headsInit s.orig rest

/-- `pose_ik_chain_init_topology` (lines 903-979): seeds the factors at the
nearest vertex, computes segment 0 via `calc_pose_data`, grows the factors
once per further segment with step length `radius * (1 + pose_offset)`
assigning difference weights, then links origins and heads. -/
def pose_ik_chain_init_topology (caps : ChainCaps) (brush : Brush)
    (initial_location : Vec3) (radius : ℝ) : IKChain :=
  { segments := headsInit initial_location
      ({ emptySegment with
          orig := (calc_pose_data caps initial_location radius brush.pose_offset true
            (Function.update (fun _ => 0) caps.nearestVert 1)).1,
          weights := (calc_pose_data caps initial_location radius brush.pose_offset true
            (Function.update (fun _ => 0) caps.nearestVert 1)).2 } ::
        topoTail caps (radius * (1 + brush.pose_offset)) (brush_num_effective_segments brush - 1)
          (calc_pose_data caps initial_location radius brush.pose_offset true
            (Function.update (fun _ => 0) caps.nearestVert 1)).1
          (calc_pose_data caps initial_location radius brush.pose_offset true
            (Function.update (fun _ => 0) caps.nearestVert 1)).2),
    grab_delta_offset := 0 }

/-- Capability interface for the transform composer and the deformation
applicator, per the spec's external-interface section: the enabled symmetry
flags, the symmetry-area flip helpers (`SCULPT_flip_v3_by_symm_area` and
`SCULPT_flip_quat_by_symm_area`, outside the given sources),
`ortho_basis_v3v3_v3`, the per-vertex symmetry-area classifier, the brush
falloff curve, the combined hide/mask/automasking factor, and the external
write-back helpers (`reset_translations_to_original` and the
clip-and-write position sink). -/
structure DeformCaps where
  symm : Nat
  flipV3 : Vec3 → Nat → Nat → Vec3 → Vec3
  flipQuat : (Vec3 → Vec3) → Nat → Nat → Vec3 → (Vec3 → Vec3)
  orthoBasis : Vec3 → Vec3 × Vec3
  vertexSymmArea : Vec3 → Nat
  curveStrength : Nat → Nat → ℝ
  vertFactor : Nat → ℝ
  resetTranslations : Vec3 → Vec3 → Vec3 → Vec3
  writePosition : Vec3 → Vec3 → Vec3

/-- `solve_roll_chain` (lines 85-104): per segment, the roll scaled by the
brush falloff curve is turned into an axis-angle rotation about the
segment's reference axis and stored relative to the zero-roll rotation
(`rotation_between_quats_to_quat(rot, current, initial)` is the rotation
map of `conj(current) * initial`, i.e. the negated-roll rotation composed
with the zero-roll rotation). -/
def solve_roll_chain (dcaps : DeformCaps) (chain : IKChain) (roll : ℝ) : IKChain :=
  { chain with
    segments := (List.range chain.segments.length).zipWith
      (fun i s =>
        { s with
          rot := fun v =>
            rotAxisAngle (normalize3 (s.initial_head - s.initial_orig))
              (-(roll * dcaps.curveStrength i chain.segments.length))
              (rotAxisAngle (normalize3 (s.initial_head - s.initial_orig)) 0 v) })
      chain.segments }

/-- `calc_twist_deform` (lines 1321-1329). -/
def calc_twist_deform (dcaps : DeformCaps) (cache : StrokeCache) : IKChain :=
  solve_roll_chain dcaps cache.pose_ik_chain
    ((cache.initial_mouse_x - cache.mouse_x) * cache.bstrength * 0.02)

/-- `calc_rotate_deform` (lines 1331-1340). -/
def calc_rotate_deform (cache : StrokeCache) (brush : Brush) : IKChain :=
  solve_ik_chain cache.pose_ik_chain
    (cache.location + cache.grab_delta + cache.pose_ik_chain.grab_delta_offset)
    brush.ik_anchored

/-- `calc_rotate_twist_deform` (lines 1342-1350). -/
def calc_rotate_twist_deform (dcaps : DeformCaps) (cache : StrokeCache) (brush : Brush) :
    IKChain :=
  if cache.invert then calc_twist_deform dcaps cache else calc_rotate_deform cache brush

/-- `align_pivot_local_space` (lines 1376-1391): the pivot local basis with
its third axis along the flipped segment direction and the remaining two
axes from the orthonormal-basis construction. -/
def alignPivotLocalSpace (dcaps : DeformCaps) (cache : StrokeCache) (seg : IKChainSegment)
    (area : Nat) : Mat4 :=
  ⟨(dcaps.orthoBasis (normalize3
      (dcaps.flipV3 seg.head dcaps.symm area cache.orig_grab_location -
        dcaps.flipV3 seg.orig dcaps.symm area cache.orig_grab_location))).1,
    (dcaps.orthoBasis (normalize3
      (dcaps.flipV3 seg.head dcaps.symm area cache.orig_grab_location -
        dcaps.flipV3 seg.orig dcaps.symm area cache.orig_grab_location))).2,
    normalize3
      (dcaps.flipV3 seg.head dcaps.symm area cache.orig_grab_location -
        dcaps.flipV3 seg.orig dcaps.symm area cache.orig_grab_location),
    0⟩

/-- One symmetry area's `trans_mat` as built by the matrix loop of
`do_pose_brush` (lines 1427-1466): rotation (or identity with the aligned
pivot basis for squash/stretch), per-axis scale, and the translation from
the flipped initial origin to the flipped current origin. -/
def segTransMat (dcaps : DeformCaps) (brush : Brush) (cache : StrokeCache)
    (seg : IKChainSegment) (area : Nat) : Mat4 :=
  translate_m4
    (scaleMatAxes
      (if brush.pose_deform_type = BrushPoseDeformType.squash_stretch then unit_m4
       else quat_to_mat4
        (dcaps.flipQuat seg.rot dcaps.symm area cache.orig_grab_location))
      seg.scale)
    (dcaps.flipV3 seg.orig dcaps.symm area cache.orig_grab_location -
      dcaps.flipV3 seg.initial_orig dcaps.symm area cache.orig_grab_location)

/-- One symmetry area's `pivot_mat` from the same loop (lines 1468-1471):
translation to the flipped current origin composed with the pivot local
basis. -/
def segPivotMat (dcaps : DeformCaps) (brush : Brush) (cache : StrokeCache)
    (seg : IKChainSegment) (area : Nat) : Mat4 :=
  matMulPost
    (translate_m4 unit_m4 (dcaps.flipV3 seg.orig dcaps.symm area cache.orig_grab_location))
    (if brush.pose_deform_type = BrushPoseDeformType.squash_stretch then
      alignPivotLocalSpace dcaps cache seg area
     else unit_m4)

/-- The matrix loop of `do_pose_brush` for one segment: all symmetry
areas' transform, pivot and inverse-pivot matrices. -/
def buildSegmentMats (dcaps : DeformCaps) (brush : Brush) (cache : StrokeCache)
    (seg : IKChainSegment) : IKChainSegment :=
  { seg with
    trans_mat := fun area => segTransMat dcaps brush cache seg area,
    pivot_mat := fun area => segPivotMat dcaps brush cache seg area,
    pivot_mat_inv := fun area => invert_m4 (segPivotMat dcaps brush cache seg area) }

/-- `calc_segment_translations` (lines 134-147): each original position is
taken through inverse-pivot, local transform and pivot for its symmetry
area; the translation is the displacement from the original position. -/
def calc_segment_translations (dcaps : DeformCaps) (origPositions : List Vec3)
    (seg : IKChainSegment) : List Vec3 :=
  origPositions.map fun p =>
    transformPoint (seg.pivot_mat (dcaps.vertexSymmArea p))
      (transformPoint (seg.trans_mat (dcaps.vertexSymmArea p))
        (transformPoint (seg.pivot_mat_inv (dcaps.vertexSymmArea p)) p)) - p

/-- Three-list `zipWith`. -/
def zip3With (f : α → β → γ → δ) : List α → List β → List γ → List δ
  | a :: as', b :: bs, c :: cs => f a b c :: zip3With f as' bs cs
  | _, _, _ => []

/-- The weighted accumulation of `calc_mesh` (lines 188-194): per segment,
the segment translations scaled by the segment's per-vertex weights, summed
over all segments. -/
def poseTranslations (dcaps : DeformCaps) (cache : StrokeCache) (origPositions : List Vec3) :
    List Vec3 :=
  cache.pose_ik_chain.segments.foldl
    (fun acc seg =>
      List.zipWith (fun a b => a + b) acc
        (List.zipWith (fun w t => w • t)
          ((List.range origPositions.length).map seg.weights)
          (calc_segment_translations dcaps origPositions seg)))
    (origPositions.map fun _ => (0 : Vec3))

/-- The mesh-representation state the applicator touches: the live
positions, the original (pre-stroke) positions, and the cloth simulation's
deformation-target buffer. -/
structure PoseState where
  cache : StrokeCache
  positions : List Vec3
  origPositions : List Vec3
  clothPos : List Vec3

/-- `calc_mesh` (lines 157-208) over the whole mesh (one batch): weighted
segment translations scaled by the hide/mask/automasking factor, then
either written through the external reset/clip/write position sink
(geometry target) or scattered as original-plus-translation into the cloth
deformation buffer. -/
def applyPoseToMesh (dcaps : DeformCaps) (brush : Brush) (st : PoseState) : PoseState :=
  match brush.deform_target with
  | BrushDeformTarget.geometry =>
      { st with
        positions := List.zipWith dcaps.writePosition st.positions
          (zip3With dcaps.resetTranslations
            (List.zipWith (fun f t => f • t)
              ((List.range st.origPositions.length).map dcaps.vertFactor)
              (poseTranslations dcaps st.cache st.origPositions))
            st.positions st.origPositions) }
  | BrushDeformTarget.cloth_sim =>
      { st with
        clothPos := List.zipWith (fun t o => t + o)
          (List.zipWith (fun f t => f • t)
            ((List.range st.origPositions.length).map dcaps.vertFactor)
            (poseTranslations dcaps st.cache st.origPositions))
          st.origPositions }

/-- `do_pose_brush` (lines 1393-1513) for the mesh representation: the
early return on a nonzero mirror-symmetry pass, the deformation-mode
dispatch, the per-symmetry-area matrix loop, and the vertex sweep. -/
def do_pose_brush (dcaps : DeformCaps) (brush : Brush) (st : PoseState) : PoseState :=
  if st.cache.mirror_symmetry_pass ≠ 0 then st
  else
    applyPoseToMesh dcaps brush
      { st with
        cache :=
          { st.cache with
            pose_ik_chain :=
              (fun chain1 =>
                { chain1 with
                  segments := chain1.segments.map (buildSegmentMats dcaps brush st.cache) })
              (match brush.pose_deform_type with
                | BrushPoseDeformType.rotate_twist =>
                    calc_rotate_twist_deform dcaps st.cache brush
                | BrushPoseDeformType.scale_traslate =>
                    calc_scale_translate_deform st.cache brush
                | BrushPoseDeformType.squash_stretch =>
                    calc_squash_stretch_deform st.cache) } }

/-- A concrete unit segment along the z axis, in its initial pose at the
origin. -/
def cseg : IKChainSegment :=
  { emptySegment with
    orig := 0, head := ⟨0, 0, 1⟩, initial_orig := 0, initial_head := ⟨0, 0, 1⟩, len := 1 }

/-- A one-segment chain made of `cseg`. -/
def chainC1 : IKChain := ⟨[cseg], 0⟩

/-- A concrete unit segment whose current origin is away from the
coordinate origin. -/
def cseg2 : IKChainSegment :=
  { emptySegment with
    orig := ⟨1, 0, 0⟩, head := ⟨1, 0, 1⟩, initial_orig := 0, initial_head := ⟨0, 0, 1⟩,
    len := 1 }

/-- A one-segment chain made of `cseg2`. -/
def chainC2 : IKChain := ⟨[cseg2], 0⟩

/-- A concrete stroke cache whose grab target lies half a unit beyond the
first segment's initial head along its reference axis. -/
def cache8 : StrokeCache :=
  { location := ⟨0, 0, 1⟩, grab_delta := ⟨0, 0, (1 : ℝ) / 2⟩, orig_grab_location := 0,
    invert := false, mirror_symmetry_pass := 0, initial_mouse_x := 0, mouse_x := 0,
    bstrength := 0, pose_ik_chain := ⟨[cseg], 0⟩ }

/-- A concrete three-vertex path mesh with vertices at x = 0, 1, 3, all
visible, no symmetry, no fake neighbors. -/
def caps3 : ChainCaps :=
  { totvert := 3,
    position := fun v => if v = 0 then ⟨0, 0, 0⟩ else if v = 1 then ⟨1, 0, 0⟩ else ⟨3, 0, 0⟩,
    neighbors := fun v =>
      if v = 0 then [1] else if v = 1 then [0, 2] else if v = 2 then [1] else [],
    visible := fun _ => true,
    useFakeNeighbors := false,
    fakeNeighbor := fun _ => none,
    pivotSymmOk := fun _ _ => true,
    symm := 0,
    symmIterValid := fun i => i == 0,
    symmetryFlip := fun _ v => v,
    nearestVert := 0,
    floodEvents := [],
    growFuel := 5,
    fltMax := 1000000 }

/-- The factor field seeding vertex 0 of the path mesh with weight 1. -/
def f3 : Nat → ℝ := Function.update (fun _ => 0) 0 1

/-- A concrete one-vertex mesh with no adjacency. -/
def caps1 : ChainCaps :=
  { totvert := 1,
    position := fun _ => 0,
    neighbors := fun _ => [],
    visible := fun _ => true,
    useFakeNeighbors := false,
    fakeNeighbor := fun _ => none,
    pivotSymmOk := fun _ _ => true,
    symm := 0,
    symmIterValid := fun i => i == 0,
    symmetryFlip := fun _ v => v,
    nearestVert := 0,
    floodEvents := [],
    growFuel := 1,
    fltMax := 1000000 }

/-- A rotate/twist brush configured for two IK segments. -/
def brushRT2 : Brush :=
  { pose_deform_type := BrushPoseDeformType.rotate_twist, pose_ik_segments := 2,
    pose_offset := 0, deform_target := BrushDeformTarget.geometry, lock_rotation := false,
    ik_anchored := false }

/-- A scale/translate brush configured for seven IK segments. -/
def brushST : Brush :=
  { pose_deform_type := BrushPoseDeformType.scale_traslate, pose_ik_segments := 7,
    pose_offset := 0, deform_target := BrushDeformTarget.geometry, lock_rotation := false,
    ik_anchored := false }

/-- A squash/stretch brush configured for five IK segments. -/
def brushSS : Brush :=
  { pose_deform_type := BrushPoseDeformType.squash_stretch, pose_ik_segments := 5,
    pose_offset := 0, deform_target := BrushDeformTarget.geometry, lock_rotation := false,
    ik_anchored := false }

/-- Trivial concrete deformation capabilities. -/
def dcaps0 : DeformCaps :=
  { symm := 0,
    flipV3 := fun v _ _ _ => v,
    flipQuat := fun r _ _ _ => r,
    orthoBasis := fun _ => (⟨1, 0, 0⟩, ⟨0, 1, 0⟩),
    vertexSymmArea := fun _ => 0,
    curveStrength := fun _ _ => 1,
    vertFactor := fun _ => 1,
    resetTranslations := fun t _ _ => t,
    writePosition := fun p t => p + t }

/-- A concrete pose state in a nonzero mirror symmetry pass. -/
def st0 : PoseState :=
  { cache :=
      { location := 0, grab_delta := 0, orig_grab_location := 0, invert := false,
        mirror_symmetry_pass := 1, initial_mouse_x := 0, mouse_x := 0, bstrength := 0,
        pose_ik_chain := ⟨[cseg], 0⟩ },
    positions := [], origPositions := [], clothPos := [] }

@[ext] theorem Vec3.ext3 {a b : Vec3} (hx : a.x = b.x) (hy : a.y = b.y) (hz : a.z = b.z) :
    a = b := by
  cases a; cases b; simp_all

@[simp] theorem Vec3.add_x (a b : Vec3) : (a + b).x = a.x + b.x := rfl

@[simp] theorem Vec3.add_y (a b : Vec3) : (a + b).y = a.y + b.y := rfl

@[simp] theorem Vec3.add_z (a b : Vec3) : (a + b).z = a.z + b.z := rfl

@[simp] theorem Vec3.sub_x (a b : Vec3) : (a - b).x = a.x - b.x := rfl

@[simp] theorem Vec3.sub_y (a b : Vec3) : (a - b).y = a.y - b.y := rfl

@[simp] theorem Vec3.sub_z (a b : Vec3) : (a - b).z = a.z - b.z := rfl

@[simp] theorem Vec3.neg_x (a : Vec3) : (-a).x = -a.x := rfl

@[simp] theorem Vec3.neg_y (a : Vec3) : (-a).y = -a.y := rfl

@[simp] theorem Vec3.neg_z (a : Vec3) : (-a).z = -a.z := rfl

@[simp] theorem Vec3.smul_x (c : ℝ) (a : Vec3) : (c • a).x = c * a.x := rfl

@[simp] theorem Vec3.smul_y (c : ℝ) (a : Vec3) : (c • a).y = c * a.y := rfl

@[simp] theorem Vec3.smul_z (c : ℝ) (a : Vec3) : (c • a).z = c * a.z := rfl

@[simp] theorem Vec3.zero_x : (0 : Vec3).x = 0 := rfl

@[simp] theorem Vec3.zero_y : (0 : Vec3).y = 0 := rfl

@[simp] theorem Vec3.zero_z : (0 : Vec3).z = 0 := rfl

theorem dot3_nonneg (v : Vec3) : 0 ≤ dot3 v v := by
  unfold dot3
  nlinarith [sq_nonneg v.x, sq_nonneg v.y, sq_nonneg v.z]

theorem dot3_self_eq_zero_iff {v : Vec3} : dot3 v v = 0 ↔ v = 0 := by
  constructor
  · intro h
    unfold dot3 at h
    have hx : v.x = 0 := by nlinarith [sq_nonneg v.x, sq_nonneg v.y, sq_nonneg v.z]
    have hy : v.y = 0 := by nlinarith [sq_nonneg v.x, sq_nonneg v.y, sq_nonneg v.z]
    have hz : v.z = 0 := by nlinarith [sq_nonneg v.x, sq_nonneg v.y, sq_nonneg v.z]
    ext <;> simp [hx, hy, hz]
  · intro h
    subst h
    simp [dot3]

theorem norm3_nonneg (v : Vec3) : 0 ≤ norm3 v := Real.sqrt_nonneg _

theorem norm3_eq_zero_iff {v : Vec3} : norm3 v = 0 ↔ v = 0 := by
  unfold norm3
  rw [Real.sqrt_eq_zero (dot3_nonneg v)]
  exact dot3_self_eq_zero_iff

theorem norm3_pos {v : Vec3} (h : v ≠ 0) : 0 < norm3 v := by
  rcases lt_or_eq_of_le (norm3_nonneg v) with h1 | h1
  · exact h1
  · exact absurd (norm3_eq_zero_iff.mp h1.symm) h

theorem norm3_ne_zero {v : Vec3} (h : v ≠ 0) : norm3 v ≠ 0 := ne_of_gt (norm3_pos h)

theorem sq_norm3 (v : Vec3) : norm3 v * norm3 v = dot3 v v :=
  Real.mul_self_sqrt (dot3_nonneg v)

theorem norm3_smul (c : ℝ) (v : Vec3) : norm3 (c • v) = |c| * norm3 v := by
  unfold norm3
  have h : dot3 (c • v) (c • v) = c ^ 2 * dot3 v v := by
    simp [dot3]
    ring
  rw [h, Real.sqrt_mul (sq_nonneg c), Real.sqrt_sq_eq_abs]

theorem norm3_normalize3 {v : Vec3} (h : v ≠ 0) : norm3 (normalize3 v) = 1 := by
  unfold normalize3
  rw [norm3_smul, abs_of_nonneg (inv_nonneg.mpr (norm3_nonneg v))]
  exact inv_mul_cancel₀ (norm3_ne_zero h)

theorem dot3_normalize3_self {v : Vec3} (h : v ≠ 0) :
    dot3 (normalize3 v) (normalize3 v) = 1 := by
  have h1 := norm3_normalize3 h
  calc dot3 (normalize3 v) (normalize3 v) = norm3 (normalize3 v) * norm3 (normalize3 v) :=
        (sq_norm3 _).symm
    _ = 1 := by rw [h1]; ring

theorem smul_norm3_normalize3 {v : Vec3} (h : v ≠ 0) : norm3 v • normalize3 v = v := by
  unfold normalize3
  have hn := norm3_ne_zero h
  ext <;> simp <;> field_simp

theorem Vec3.smul_assoc (a b : ℝ) (v : Vec3) : a • (b • v) = (a * b) • v := by
  ext <;> simp <;> ring

theorem Vec3.one_smul (v : Vec3) : (1 : ℝ) • v = v := by
  ext <;> simp

theorem dot3_smul_left (c : ℝ) (a b : Vec3) : dot3 (c • a) b = c * dot3 a b := by
  simp [dot3]; ring

theorem cross3_smul_left (c : ℝ) (a b : Vec3) : cross3 (c • a) b = c • cross3 a b := by
  ext <;> simp [cross3] <;> ring

theorem dot3_cross3_left (a b : Vec3) : dot3 (cross3 a b) a = 0 := by
  simp [dot3, cross3]; ring

theorem triple_cross (u v : Vec3) : cross3 (cross3 u v) u = dot3 u u • v - dot3 u v • u := by
  ext <;> simp [cross3, dot3] <;> ring

theorem parallel_of_cross3_eq_zero {u v : Vec3} (hc : cross3 u v = 0)
    (hu : dot3 u u = 1) : v = dot3 u v • u := by
  have hxc : u.y * v.z - u.z * v.y = 0 := by
    have := congrArg Vec3.x hc; simpa [cross3] using this
  have hyc : u.z * v.x - u.x * v.z = 0 := by
    have := congrArg Vec3.y hc; simpa [cross3] using this
  have hzc : u.x * v.y - u.y * v.x = 0 := by
    have := congrArg Vec3.z hc; simpa [cross3] using this
  have hu' : u.x * u.x + u.y * u.y + u.z * u.z = 1 := hu
  ext
  · show v.x = dot3 u v * u.x
    unfold dot3
    linear_combination (-(u.y)) * hzc + u.z * hyc + (-(v.x)) * hu'
  · show v.y = dot3 u v * u.y
    unfold dot3
    linear_combination u.x * hzc + (-(u.z)) * hxc + (-(v.y)) * hu'
  · show v.z = dot3 u v * u.z
    unfold dot3
    linear_combination (-(u.x)) * hyc + u.y * hxc + (-(v.z)) * hu'

theorem rotation_between_vecs_apply {u v : Vec3} (hu : dot3 u u = 1) (hv : dot3 v v = 1) :
    rotation_between_vecs u v u = v := by
  unfold rotation_between_vecs
  by_cases hc : cross3 u v = 0
  · rw [if_pos hc]
    have hpar : v = dot3 u v • u := parallel_of_cross3_eq_zero hc hu
    have ht : dot3 u v * dot3 u v = 1 := by
      have h2 : dot3 (dot3 u v • u) (dot3 u v • u) = dot3 u v * dot3 u v * dot3 u u := by
        simp [dot3]; ring
      rw [← hpar, hv, hu] at h2
      linarith [h2]
    by_cases hd : 0 < dot3 u v
    · rw [if_pos hd]
      have h1 : dot3 u v = 1 := by nlinarith
      rw [hpar, h1, Vec3.one_smul]
      rfl
    · rw [if_neg hd]
      have h1 : dot3 u v = -1 := by nlinarith
      have horth : dot3 (orthoVec u) u = 0 := by
        unfold orthoVec
        by_cases h0 : cross3 u ⟨1, 0, 0⟩ = 0
        · rw [if_pos h0]; simp [dot3, cross3]; ring
        · rw [if_neg h0]; simp [dot3, cross3]; ring
      have horth2 : dot3 (normalize3 (orthoVec u)) u = 0 := by
        unfold normalize3
        rw [dot3_smul_left, horth, mul_zero]
      show rodrigues (normalize3 (orthoVec u)) (-1) 0 u = v
      unfold rodrigues
      rw [horth2, mul_zero, hpar, h1]
      ext <;> simp
  · rw [if_neg hc]
    have hs : norm3 (cross3 u v) ≠ 0 := norm3_ne_zero hc
    unfold rodrigues
    have h1 : dot3 (normalize3 (cross3 u v)) u = 0 := by
      unfold normalize3
      rw [dot3_smul_left, dot3_cross3_left, mul_zero]
    have h2 : cross3 (normalize3 (cross3 u v)) u =
        (norm3 (cross3 u v))⁻¹ • cross3 (cross3 u v) u := by
      unfold normalize3
      exact cross3_smul_left _ _ _
    rw [h1, mul_zero, h2, Vec3.smul_assoc,
      mul_inv_cancel₀ hs, Vec3.one_smul, triple_cross, hu, Vec3.one_smul]
    ext <;> simp

theorem dist3_shift (a b d : Vec3) : dist3 (a + d) (b + d) = dist3 a b := by
  unfold dist3
  have h : a + d - (b + d) = a - b := by ext <;> simp
  rw [h]

theorem sqrt_four : Real.sqrt 4 = 2 := by
  rw [show (4 : ℝ) = 2 ^ 2 by norm_num, Real.sqrt_sq (by norm_num : (0 : ℝ) ≤ 2)]

theorem solveStep_orig_closed (s : IKChainSegment) (t : Vec3) :
    (solveStep s t).orig = t - s.len • normalize3 (t - s.orig) := by
  show s.orig + (t - (s.orig + s.len • normalize3 (t - s.orig))) = _
  ext <;> simp <;> ring

theorem solveStep_dist (s : IKChainSegment) (t : Vec3) (h : t - s.orig ≠ 0) :
    dist3 (solveStep s t).head (solveStep s t).orig = |2 * s.len - dist3 t s.orig| := by
  have hdn : norm3 (t - s.orig) • normalize3 (t - s.orig) = t - s.orig :=
    smul_norm3_normalize3 h
  have hx := congrArg Vec3.x hdn
  have hy := congrArg Vec3.y hdn
  have hz := congrArg Vec3.z hdn
  simp at hx hy hz
  have key : (solveStep s t).head - (solveStep s t).orig =
      (2 * s.len - norm3 (t - s.orig)) • normalize3 (t - s.orig) := by
    rw [solveStep_orig_closed]
    show s.orig + s.len • normalize3 (t - s.orig) - (t - s.len • normalize3 (t - s.orig)) = _
    ext
    · show s.orig.x + s.len * (normalize3 (t - s.orig)).x -
        (t.x - s.len * (normalize3 (t - s.orig)).x) = _
      simp
      linear_combination hx
    · show s.orig.y + s.len * (normalize3 (t - s.orig)).y -
        (t.y - s.len * (normalize3 (t - s.orig)).y) = _
      simp
      linear_combination hy
    · show s.orig.z + s.len * (normalize3 (t - s.orig)).z -
        (t.z - s.len * (normalize3 (t - s.orig)).z) = _
      simp
      linear_combination hz
  show norm3 _ = _
  rw [show (solveStep s t).head - (solveStep s t).orig =
    (2 * s.len - norm3 (t - s.orig)) • normalize3 (t - s.orig) from key]
  rw [norm3_smul, norm3_normalize3 h, mul_one]
  rfl

theorem targetAt_zero (l : List IKChainSegment) (t : Vec3) : targetAt l t 0 = t := by
  cases l <;> rfl

theorem targetAt_succ_cons (s : IKChainSegment) (rest : List IKChainSegment) (t : Vec3)
    (i : Nat) : targetAt (s :: rest) t (i + 1) = targetAt rest (solveStep s t).orig i := rfl

theorem solveSegments_cons (s : IKChainSegment) (rest : List IKChainSegment) (t : Vec3) :
    solveSegments (s :: rest) t = solveStep s t :: solveSegments rest (solveStep s t).orig := rfl

theorem solveSegments_getElem :
    ∀ (l : List IKChainSegment) (t : Vec3) (i : Nat) (s0 : IKChainSegment),
      l[i]? = some s0 → (solveSegments l t)[i]? = some (solveStep s0 (targetAt l t i)) := by
  intro l
  induction l with
  | nil => intro t i s0 h; simp at h
  | cons s rest ih =>
      intro t i s0 h
      cases i with
      | zero =>
          simp at h
          rw [targetAt_zero, solveSegments_cons, List.getElem?_cons_zero, h]
      | succ i =>
          simp only [List.getElem?_cons_succ] at h
          rw [targetAt_succ_cons, solveSegments_cons, List.getElem?_cons_succ]
          exact ih (solveStep s t).orig i s0 h

theorem targetAt_succ_of_getElem :
    ∀ (l : List IKChainSegment) (t : Vec3) (i : Nat) (s0 : IKChainSegment),
      l[i]? = some s0 →
      targetAt l t (i + 1) = (solveStep s0 (targetAt l t i)).orig := by
  intro l
  induction l with
  | nil => intro t i s0 h; simp at h
  | cons s rest ih =>
      intro t i s0 h
      cases i with
      | zero =>
          simp at h
          rw [targetAt_succ_cons, targetAt_zero, targetAt_zero, h]
      | succ i =>
          simp only [List.getElem?_cons_succ] at h
          rw [targetAt_succ_cons, targetAt_succ_cons]
          exact ih (solveStep s t).orig i s0 h

theorem solve_ik_chain_false (chain : IKChain) (t : Vec3) :
    (solve_ik_chain chain t false).segments = solveSegments chain.segments t := by
  simp [solve_ik_chain]

/-- C1: the claim that `solve_ik_chain` preserves `distance(head, orig) = len` is
false on the code: with a single unit segment at the origin and the target at
distance 2, the solved segment has `head = orig`, so the distance is 0 while
`len = 1`.  Both non-degeneracy hypotheses of the claim hold at this input. -/
theorem pose_solve_length_preservation_cex :
    ((⟨2, 0, 0⟩ : Vec3) - cseg.orig ≠ 0) ∧
    (cseg.initial_head - cseg.initial_orig ≠ 0) ∧
    dist3 ((solve_ik_chain chainC1 ⟨2, 0, 0⟩ false).segments.headI).head
      ((solve_ik_chain chainC1 ⟨2, 0, 0⟩ false).segments.headI).orig ≠ cseg.len := by
  have hn : normalize3 ((⟨2, 0, 0⟩ : Vec3) - cseg.orig) = ⟨1, 0, 0⟩ := by
    have hd : dot3 ((⟨2, 0, 0⟩ : Vec3) - cseg.orig) ((⟨2, 0, 0⟩ : Vec3) - cseg.orig) = 4 := by
      simp [dot3, cseg, emptySegment]
      norm_num
    have hnn : norm3 ((⟨2, 0, 0⟩ : Vec3) - cseg.orig) = 2 := by
      unfold norm3
      rw [hd, sqrt_four]
    unfold normalize3
    rw [hnn]
    ext <;> simp [cseg, emptySegment]
  refine ⟨?_, ?_, ?_⟩
  · intro h
    have := congrArg Vec3.x h
    simp [cseg, emptySegment] at this
  · intro h
    have := congrArg Vec3.z h
    simp [cseg, emptySegment] at this
  · have hseg : (solve_ik_chain chainC1 ⟨2, 0, 0⟩ false).segments.headI =
        solveStep cseg ⟨2, 0, 0⟩ := rfl
    rw [hseg]
    have hhead : (solveStep cseg ⟨2, 0, 0⟩).head = ⟨1, 0, 0⟩ := by
      show cseg.orig + cseg.len • normalize3 ((⟨2, 0, 0⟩ : Vec3) - cseg.orig) = _
      rw [hn]
      ext <;> simp [cseg, emptySegment]
    have horig : (solveStep cseg ⟨2, 0, 0⟩).orig = ⟨1, 0, 0⟩ := by
      rw [solveStep_orig_closed, hn]
      ext <;> simp [cseg, emptySegment] 
      norm_num
    rw [hhead, horig]
    have hz : dist3 (⟨1, 0, 0⟩ : Vec3) ⟨1, 0, 0⟩ = 0 := by
      unfold dist3 norm3
      rw [show ((⟨1, 0, 0⟩ : Vec3) - ⟨1, 0, 0⟩) = 0 by ext <;> simp]
      rw [show dot3 (0 : Vec3) 0 = 0 by simp [dot3]]
      exact Real.sqrt_zero
    rw [hz]
    show (0 : ℝ) ≠ cseg.len
    simp [cseg, emptySegment]

/-- C1 (amended): after `solve_ik_chain` — with or without the anchor flag —
segment `i` satisfies `distance(head, orig) = |2 * len - d|` where `d` is the
distance from the running target to the segment's pre-solve origin; the claimed
`distance(head, orig) = len` holds only when `d` is `len` or `3 * len`. -/
theorem pose_solve_length_formula :
    ∀ (chain : IKChain) (t : Vec3) (b : Bool) (i : Nat) (s0 s1 : IKChainSegment),
      chain.segments[i]? = some s0 →
      (solve_ik_chain chain t b).segments[i]? = some s1 →
      targetAt chain.segments t i - s0.orig ≠ 0 →
      s0.initial_head - s0.initial_orig ≠ 0 →
      dist3 s1.head s1.orig = |2 * s0.len - dist3 (targetAt chain.segments t i) s0.orig| := by
  intro chain t b i s0 s1 h0 h1 hnd _hnd2
  have hsolve := solveSegments_getElem chain.segments t i s0 h0
  cases b with
  | false =>
      rw [solve_ik_chain_false, hsolve] at h1
      have hs1 : s1 = solveStep s0 (targetAt chain.segments t i) := by
        injection h1.symm
      rw [hs1]
      exact solveStep_dist s0 (targetAt chain.segments t i) hnd
  | true =>
      unfold solve_ik_chain at h1
      rw [if_pos rfl] at h1
      cases hlast : (solveSegments chain.segments t).getLast? with
      | none =>
          rw [hlast] at h1
          simp only at h1
          rw [hsolve] at h1
          have hs1 : s1 = solveStep s0 (targetAt chain.segments t i) := by
            injection h1.symm
          rw [hs1]
          exact solveStep_dist s0 (targetAt chain.segments t i) hnd
      | some last =>
          rw [hlast] at h1
          simp only at h1
          rw [List.getElem?_map, hsolve] at h1
          injection h1 with h1'
          rw [← h1']
          show dist3
            ((solveStep s0 (targetAt chain.segments t i)).head +
              (last.initial_orig - last.orig))
            ((solveStep s0 (targetAt chain.segments t i)).orig +
              (last.initial_orig - last.orig)) = _
          rw [dist3_shift]
          exact solveStep_dist s0 (targetAt chain.segments t i) hnd

/-- Witness for the amended C1 at the concrete one-segment chain and target
`(2, 0, 0)`. -/
theorem pose_solve_length_formula_witness :
    dist3 (solveStep cseg ⟨2, 0, 0⟩).head (solveStep cseg ⟨2, 0, 0⟩).orig =
      |2 * cseg.len - dist3 (targetAt chainC1.segments ⟨2, 0, 0⟩ 0) cseg.orig| :=
  pose_solve_length_formula chainC1 ⟨2, 0, 0⟩ false 0 cseg (solveStep cseg ⟨2, 0, 0⟩) rfl rfl
    (by
      intro h
      have := congrArg Vec3.x h
      simp [cseg, emptySegment, targetAt] at this)
    (by
      intro h
      have := congrArg Vec3.z h
      simp [cseg, emptySegment] at this)

/-- C2: the claim that the new origin equals `target - new_head` is false on the
code, which adds `target - new_head` to the old origin instead: with a single
unit segment whose origin is `(1, 0, 0)` and target `(3, 0, 0)`, the solved
origin is `(2, 0, 0)` while `target - new_head = (1, 0, 0)`.  Both
non-degeneracy hypotheses of the claim hold at this input. -/
theorem pose_solve_step_equations_cex :
    ((⟨3, 0, 0⟩ : Vec3) - cseg2.orig ≠ 0) ∧
    (cseg2.initial_head - cseg2.initial_orig ≠ 0) ∧
    ((solve_ik_chain chainC2 ⟨3, 0, 0⟩ false).segments.headI).orig ≠
      (⟨3, 0, 0⟩ : Vec3) - ((solve_ik_chain chainC2 ⟨3, 0, 0⟩ false).segments.headI).head := by
  have hn : normalize3 ((⟨3, 0, 0⟩ : Vec3) - cseg2.orig) = ⟨1, 0, 0⟩ := by
    have hd : dot3 ((⟨3, 0, 0⟩ : Vec3) - cseg2.orig) ((⟨3, 0, 0⟩ : Vec3) - cseg2.orig) = 4 := by
      simp [dot3, cseg2, emptySegment]
      norm_num
    have hnn : norm3 ((⟨3, 0, 0⟩ : Vec3) - cseg2.orig) = 2 := by
      unfold norm3
      rw [hd, sqrt_four]
    unfold normalize3
    rw [hnn]
    ext <;> simp [cseg2, emptySegment] 
    norm_num
  have hseg : (solve_ik_chain chainC2 ⟨3, 0, 0⟩ false).segments.headI =
      solveStep cseg2 ⟨3, 0, 0⟩ := rfl
  have hhead : (solveStep cseg2 ⟨3, 0, 0⟩).head = ⟨2, 0, 0⟩ := by
    show cseg2.orig + cseg2.len • normalize3 ((⟨3, 0, 0⟩ : Vec3) - cseg2.orig) = _
    rw [hn]
    ext <;> simp [cseg2, emptySegment] 
    norm_num
  have horig : (solveStep cseg2 ⟨3, 0, 0⟩).orig = ⟨2, 0, 0⟩ := by
    rw [solveStep_orig_closed, hn]
    ext <;> simp [cseg2, emptySegment] 
    norm_num
  refine ⟨?_, ?_, ?_⟩
  · intro h
    have := congrArg Vec3.x h
    simp [cseg2, emptySegment] at this
    norm_num at this
  · intro h
    have := congrArg Vec3.z h
    simp [cseg2, emptySegment] at this
  · rw [hseg, hhead, horig]
    intro h
    have := congrArg Vec3.x h
    simp at this
    norm_num at this

/-- C2 (amended): in the segment loop of `solve_ik_chain`, each segment's
stored rotation takes the normalized initial direction to the normalized
direction towards the running target, the new head is `origin + dir * len`,
the new origin is the *old origin plus* `target - new_head` (not bare
`target - new_head`), and the new origin is the target fed to the next
segment. -/
theorem pose_solve_step_equations :
    ∀ (chain : IKChain) (t : Vec3) (i : Nat) (s0 s1 : IKChainSegment),
      chain.segments[i]? = some s0 →
      (solve_ik_chain chain t false).segments[i]? = some s1 →
      targetAt chain.segments t i - s0.orig ≠ 0 →
      s0.initial_head - s0.initial_orig ≠ 0 →
      s1.rot (normalize3 (s0.initial_head - s0.initial_orig)) =
          normalize3 (targetAt chain.segments t i - s0.orig) ∧
        s1.head = s0.orig + s0.len • normalize3 (targetAt chain.segments t i - s0.orig) ∧
        s1.orig = s0.orig + (targetAt chain.segments t i - s1.head) ∧
        targetAt chain.segments t (i + 1) = s1.orig := by
  intro chain t i s0 s1 h0 h1 hnd hnd2
  have hsolve := solveSegments_getElem chain.segments t i s0 h0
  rw [solve_ik_chain_false, hsolve] at h1
  injection h1 with h1'
  rw [← h1']
  refine ⟨?_, rfl, rfl, ?_⟩
  · show rotation_between_vecs (normalize3 (s0.initial_head - s0.initial_orig))
      (normalize3 (targetAt chain.segments t i - s0.orig)) _ = _
    exact rotation_between_vecs_apply (dot3_normalize3_self hnd2) (dot3_normalize3_self hnd)
  · exact targetAt_succ_of_getElem chain.segments t i s0 h0

/-- Witness for the amended C2 at the concrete one-segment chain `chainC2`
and target `(3, 0, 0)`. -/
theorem pose_solve_step_equations_witness :
    (solveStep cseg2 ⟨3, 0, 0⟩).rot (normalize3 (cseg2.initial_head - cseg2.initial_orig)) =
        normalize3 (targetAt chainC2.segments ⟨3, 0, 0⟩ 0 - cseg2.orig) ∧
      (solveStep cseg2 ⟨3, 0, 0⟩).head =
        cseg2.orig + cseg2.len • normalize3 (targetAt chainC2.segments ⟨3, 0, 0⟩ 0 - cseg2.orig) ∧
      (solveStep cseg2 ⟨3, 0, 0⟩).orig =
        cseg2.orig + (targetAt chainC2.segments ⟨3, 0, 0⟩ 0 - (solveStep cseg2 ⟨3, 0, 0⟩).head) ∧
      targetAt chainC2.segments ⟨3, 0, 0⟩ 1 = (solveStep cseg2 ⟨3, 0, 0⟩).orig :=
  pose_solve_step_equations chainC2 ⟨3, 0, 0⟩ 0 cseg2 (solveStep cseg2 ⟨3, 0, 0⟩) rfl rfl
    (by
      intro h
      have := congrArg Vec3.x h
      simp [targetAt_zero, chainC2, cseg2, emptySegment] at this
      norm_num at this)
    (by
      intro h
      have := congrArg Vec3.z h
      simp [cseg2, emptySegment] at this)

theorem getLast?_map' (f : α → β) :
    ∀ l : List α, (l.map f).getLast? = l.getLast?.map f := by
  intro l
  induction l with
  | nil => rfl
  | cons a l ih =>
      cases l with
      | nil => rfl
      | cons b l' =>
          rw [List.map_cons, List.map_cons, List.getLast?_cons_cons, ← List.map_cons, ih,
            List.getLast?_cons_cons]

/-- C4 (anchor invariant): after `solve_ik_chain` with the anchor flag, the
last segment's `orig` equals its `initial_orig` exactly: the whole chain is
translated by the common vector `last.initial_orig - last.orig` after all
segments are processed, which pins the last origin. -/
theorem pose_solve_anchor_invariant :
    ∀ (chain : IKChain) (t : Vec3) (s : IKChainSegment),
      (solve_ik_chain chain t true).segments.getLast? = some s → s.orig = s.initial_orig := by
  intro chain t s h
  unfold solve_ik_chain at h
  rw [if_pos rfl] at h
  cases hlast : (solveSegments chain.segments t).getLast? with
  | none =>
      rw [hlast] at h
      simp only at h
      rw [hlast] at h
      exact absurd h (by simp)
  | some last =>
      rw [hlast] at h
      simp only at h
      rw [getLast?_map', hlast] at h
      injection h with h'
      rw [← h']
      show last.orig + (last.initial_orig - last.orig) = last.initial_orig
      ext <;> simp

/-- Witness for C4 at the concrete one-segment chain `chainC1` and target
`(2, 0, 0)`. -/
theorem pose_solve_anchor_invariant_witness :
    ((solve_ik_chain chainC1 ⟨2, 0, 0⟩ true).segments.headI).orig =
      ((solve_ik_chain chainC1 ⟨2, 0, 0⟩ true).segments.headI).initial_orig :=
  pose_solve_anchor_invariant chainC1 ⟨2, 0, 0⟩
    ((solve_ik_chain chainC1 ⟨2, 0, 0⟩ true).segments.headI) rfl

theorem growFold_apply (caps : ChainCaps) (target : Vec3) (prev : Nat → ℝ) :
    ∀ (l : List Nat) (st : (Nat → ℝ) × PoseGrowFactorData) (v : Nat),
      (l.foldl (growStep caps target prev) st).1 v =
        if v ∈ l ∧ neighborMax caps prev v > prev v then neighborMax caps prev v
        else st.1 v := by
  intro l
  induction l with
  | nil =>
      intro st v
      simp
  | cons u l' ih =>
      intro st v
      rw [List.foldl_cons, ih]
      by_cases hv : v ∈ l' ∧ neighborMax caps prev v > prev v
      · rw [if_pos hv, if_pos ⟨List.mem_cons_of_mem _ hv.1, hv.2⟩]
      · rw [if_neg hv]
        unfold growStep
        by_cases hu : neighborMax caps prev u > prev u
        · rw [if_pos hu]
          by_cases hvu : v = u
          · subst hvu
            show Function.update st.1 v (neighborMax caps prev v) v = _
            rw [Function.update_same, if_pos ⟨List.mem_cons_self _ _, hu⟩]
          · show Function.update st.1 u (neighborMax caps prev u) v = _
            rw [Function.update_noteq hvu]
            by_cases hcond : v ∈ u :: l' ∧ neighborMax caps prev v > prev v
            · exfalso
              rcases hcond with ⟨hmem, hc⟩
              rcases List.mem_cons.mp hmem with h' | h'
              · exact hvu h'
              · exact hv ⟨h', hc⟩
            · rw [if_neg hcond]
        · rw [if_neg hu]
          by_cases hcond : v ∈ u :: l' ∧ neighborMax caps prev v > prev v
          · exfalso
            rcases hcond with ⟨hmem, hc⟩
            rcases List.mem_cons.mp hmem with h' | h'
            · subst h'
              exact hu hc
            · exact hv ⟨h', hc⟩
          · rw [if_neg hcond]

/-- C6: one ring of the factor grower gives every visible vertex the maximum
previous-field value over its (fake-neighbor-extended) adjacency if that
maximum exceeds the vertex's previous value, and leaves it unchanged
otherwise; the right-hand side depends only on the read-only snapshot
`prev`, so updates made within the ring are never visible to other vertices
of the same ring. -/
theorem grow_ring_update_rule (caps : ChainCaps) (target : Vec3) (prev : Nat → ℝ) (v : Nat) :
    (growIteration caps target prev).1 v =
      if v ∈ visibleVerts caps ∧ neighborMax caps prev v > prev v then
        neighborMax caps prev v
      else prev v := by
  unfold growIteration
  rw [growFold_apply]

/-- C9: whenever a ring of `grow_pose_factor` grows zero symmetry-eligible
vertices, the loop stops at once (the result does not depend on the
remaining fuel), the grown field is kept, and the reported origin is the
unmodified target.  The embedding is a total function: no error is
signaled. -/
theorem grow_degenerate_fallback (caps : ChainCaps) (poseOrigin : Option Vec3)
    (target : Vec3) (maxLen prevLen : ℝ) (fuel : Nat) (field : Nat → ℝ)
    (h : (growIteration caps target field).2.pos_count = 0) :
    growPoseLoop caps poseOrigin target maxLen (fuel + 1) prevLen field true =
      ((growIteration caps target field).1, some target) := by
  simp only [growPoseLoop]
  rw [if_neg (by simp [h])]
  simp

/-- Witness for C9 on the concrete one-vertex mesh: the first ring grows
nothing, and the loop reports the unmodified target. -/
theorem grow_degenerate_fallback_witness :
    (growIteration caps1 ⟨0, 0, 0⟩ (fun _ => 0)).2.pos_count = 0 ∧
    growPoseLoop caps1 none ⟨0, 0, 0⟩ 1 1 5 (fun _ => 0) true =
      ((growIteration caps1 ⟨0, 0, 0⟩ (fun _ => 0)).1, some ⟨0, 0, 0⟩) := by
  have hcount : (growIteration caps1 ⟨0, 0, 0⟩ (fun _ => 0)).2.pos_count = 0 := by
    unfold growIteration
    rw [show visibleVerts caps1 = [0] from rfl]
    rw [List.foldl_cons, List.foldl_nil]
    unfold growStep
    rw [if_neg (by norm_num [neighborMax, neighborsOf, caps1])]
  exact ⟨hcount, grow_degenerate_fallback caps1 none ⟨0, 0, 0⟩ 1 5 0 (fun _ => 0) hcount⟩

/-- C3 (amended): in target-distance mode with the origin out-parameter
supplied, the grow loop keeps iterating while the ring centroid's distance
to the target stays below `max_len`; at the first ring whose centroid
reaches `max_len` it stops, rolls the factor field back to the previous
ring's snapshot (the loop's input field), and reports the *stopping* ring's
centroid — the centroid that reached the limit — as the origin. -/
theorem grow_target_distance_stop (caps : ChainCaps) (target : Vec3) (maxLen prevLen : ℝ)
    (fuel : Nat) (field : Nat → ℝ)
    (h : (growIteration caps target field).2.pos_count ≠ 0) :
    (dist3 (centroidOf (growIteration caps target field).2) target < maxLen →
        growPoseLoop caps none target maxLen (fuel + 1) prevLen field true =
          growPoseLoop caps none target maxLen fuel
            (dist3 (centroidOf (growIteration caps target field).2) target)
            (growIteration caps target field).1 true) ∧
      (maxLen ≤ dist3 (centroidOf (growIteration caps target field).2) target →
        growPoseLoop caps none target maxLen (fuel + 1) prevLen field true =
          (field, some (centroidOf (growIteration caps target field).2))) := by
  constructor
  · intro hlt
    simp only [growPoseLoop]
    rw [if_pos h, if_pos hlt]
  · intro hge
    simp only [growPoseLoop]
    rw [if_pos h, if_neg (not_lt.mpr hge)]
    simp

theorem f3_at_0 : f3 0 = 1 := by simp [f3]

theorem f3_at_1 : f3 1 = 0 := by simp [f3]

theorem f3_at_2 : f3 2 = 0 := by simp [f3]

theorem f1_at_0 : Function.update f3 1 1 0 = 1 := by simp [f3, Function.update]

theorem f1_at_1 : Function.update f3 1 1 1 = 1 := by simp [Function.update]

theorem f1_at_2 : Function.update f3 1 1 2 = 0 := by simp [f3, Function.update]

theorem nbm3_0 : neighborMax caps3 f3 0 = 0 := by
  rw [show neighborMax caps3 f3 0 = max 0 (f3 1) from rfl, f3_at_1, max_self]

theorem nbm3_1 : neighborMax caps3 f3 1 = 1 := by
  rw [show neighborMax caps3 f3 1 = max (max 0 (f3 0)) (f3 2) from rfl, f3_at_0, f3_at_2,
    max_eq_right (by norm_num : (0 : ℝ) ≤ 1), max_eq_left (by norm_num : (0 : ℝ) ≤ 1)]

theorem nbm3_2 : neighborMax caps3 f3 2 = 0 := by
  rw [show neighborMax caps3 f3 2 = max 0 (f3 1) from rfl, f3_at_1, max_self]

theorem nbm3f1_0 : neighborMax caps3 (Function.update f3 1 1) 0 = 1 := by
  rw [show neighborMax caps3 (Function.update f3 1 1) 0 = max 0 (Function.update f3 1 1 1)
    from rfl, f1_at_1, max_eq_right (by norm_num : (0 : ℝ) ≤ 1)]

theorem nbm3f1_1 : neighborMax caps3 (Function.update f3 1 1) 1 = 1 := by
  rw [show neighborMax caps3 (Function.update f3 1 1) 1 =
      max (max 0 (Function.update f3 1 1 0)) (Function.update f3 1 1 2) from rfl,
    f1_at_0, f1_at_2, max_eq_right (by norm_num : (0 : ℝ) ≤ 1),
    max_eq_left (by norm_num : (0 : ℝ) ≤ 1)]

theorem nbm3f1_2 : neighborMax caps3 (Function.update f3 1 1) 2 = 1 := by
  rw [show neighborMax caps3 (Function.update f3 1 1) 2 = max 0 (Function.update f3 1 1 1)
    from rfl, f1_at_1, max_eq_right (by norm_num : (0 : ℝ) ≤ 1)]

theorem caps3_ring1 : growIteration caps3 ⟨0, 0, 0⟩ f3 =
    (Function.update f3 1 1, ⟨⟨1, 0, 0⟩, 1⟩) := by
  have h0 : ¬(neighborMax caps3 f3 0 > f3 0) := by rw [nbm3_0, f3_at_0]; norm_num
  have h1 : neighborMax caps3 f3 1 > f3 1 := by rw [nbm3_1, f3_at_1]; norm_num
  have h2 : ¬(neighborMax caps3 f3 2 > f3 2) := by rw [nbm3_2, f3_at_2]; norm_num
  unfold growIteration
  rw [show visibleVerts caps3 = [0, 1, 2] from rfl]
  rw [List.foldl_cons, List.foldl_cons, List.foldl_cons, List.foldl_nil]
  unfold growStep
  rw [if_neg h0, if_pos h1, if_neg h2, nbm3_1]
  rw [if_pos (show caps3.pivotSymmOk (caps3.position 1) ⟨0, 0, 0⟩ = true from rfl)]
  rw [Prod.ext_iff]
  refine ⟨rfl, ?_⟩
  show PoseGrowFactorData.mk ((0 : Vec3) + caps3.position 1) (0 + 1) =
    PoseGrowFactorData.mk ⟨1, 0, 0⟩ 1
  rw [PoseGrowFactorData.mk.injEq]
  exact ⟨by ext <;> norm_num [caps3], by norm_num⟩

theorem caps3_ring2 : growIteration caps3 ⟨0, 0, 0⟩ (Function.update f3 1 1) =
    (Function.update (Function.update f3 1 1) 2 1, ⟨⟨3, 0, 0⟩, 1⟩) := by
  have h0 : ¬(neighborMax caps3 (Function.update f3 1 1) 0 > Function.update f3 1 1 0) := by
    rw [nbm3f1_0, f1_at_0]; norm_num
  have h1 : ¬(neighborMax caps3 (Function.update f3 1 1) 1 > Function.update f3 1 1 1) := by
    rw [nbm3f1_1, f1_at_1]; norm_num
  have h2 : neighborMax caps3 (Function.update f3 1 1) 2 > Function.update f3 1 1 2 := by
    rw [nbm3f1_2, f1_at_2]; norm_num
  unfold growIteration
  rw [show visibleVerts caps3 = [0, 1, 2] from rfl]
  rw [List.foldl_cons, List.foldl_cons, List.foldl_cons, List.foldl_nil]
  unfold growStep
  rw [if_neg h0, if_neg h1, if_pos h2, nbm3f1_2]
  rw [if_pos (show caps3.pivotSymmOk (caps3.position 2) ⟨0, 0, 0⟩ = true from rfl)]
  rw [Prod.ext_iff]
  refine ⟨rfl, ?_⟩
  show PoseGrowFactorData.mk ((0 : Vec3) + caps3.position 2) (0 + 1) =
    PoseGrowFactorData.mk ⟨3, 0, 0⟩ 1
  rw [PoseGrowFactorData.mk.injEq]
  exact ⟨by ext <;> norm_num [caps3], by norm_num⟩

theorem sqrt_nine : Real.sqrt 9 = 3 := by
  rw [show (9 : ℝ) = 3 ^ 2 by norm_num, Real.sqrt_sq (by norm_num : (0 : ℝ) ≤ 3)]

theorem centroid_ring1 : centroidOf ⟨⟨1, 0, 0⟩, 1⟩ = (⟨1, 0, 0⟩ : Vec3) := by
  unfold centroidOf
  ext <;> simp

theorem centroid_ring2 : centroidOf ⟨⟨3, 0, 0⟩, 1⟩ = (⟨3, 0, 0⟩ : Vec3) := by
  unfold centroidOf
  ext <;> simp

theorem dist3_ring1 : dist3 (⟨1, 0, 0⟩ : Vec3) ⟨0, 0, 0⟩ = 1 := by
  unfold dist3 norm3
  rw [show dot3 ((⟨1, 0, 0⟩ : Vec3) - ⟨0, 0, 0⟩) ((⟨1, 0, 0⟩ : Vec3) - ⟨0, 0, 0⟩) = 1 from by
    simp [dot3]]
  exact Real.sqrt_one

theorem dist3_ring2 : dist3 (⟨3, 0, 0⟩ : Vec3) ⟨0, 0, 0⟩ = 3 := by
  unfold dist3 norm3
  rw [show dot3 ((⟨3, 0, 0⟩ : Vec3) - ⟨0, 0, 0⟩) ((⟨3, 0, 0⟩ : Vec3) - ⟨0, 0, 0⟩) = 9 from by
    simp [dot3]; norm_num]
  exact sqrt_nine

theorem caps3_loop : grow_pose_factor caps3 none ⟨0, 0, 0⟩ 2 true f3 =
    (Function.update f3 1 1, some ⟨3, 0, 0⟩) := by
  unfold grow_pose_factor
  rw [show caps3.growFuel = 5 from rfl, show caps3.fltMax = (1000000 : ℝ) from rfl]
  simp only [growPoseLoop]
  rw [caps3_ring1]
  norm_num [centroid_ring1, dist3_ring1]
  rw [caps3_ring2]
  norm_num [centroid_ring2, dist3_ring2]

/-- C3: the claim that target-distance mode reports the *pre-stop* centroid is
false on the code.  On the three-vertex path mesh with `max_len = 2`, ring 1
has centroid `(1, 0, 0)` (distance 1, below the limit) and ring 2 has centroid
`(3, 0, 0)` (distance 3, reaching the limit): the loop stops at ring 2, rolls
the factor field back to ring 1's snapshot, but reports ring 2's centroid
`(3, 0, 0)` — not the pre-stop centroid `(1, 0, 0)`. -/
theorem grow_target_distance_origin_cex :
    (grow_pose_factor caps3 none ⟨0, 0, 0⟩ 2 true f3).2 = some ⟨3, 0, 0⟩ ∧
    (grow_pose_factor caps3 none ⟨0, 0, 0⟩ 2 true f3).1 = Function.update f3 1 1 ∧
    centroidOf (growIteration caps3 ⟨0, 0, 0⟩ f3).2 = ⟨1, 0, 0⟩ ∧
    (grow_pose_factor caps3 none ⟨0, 0, 0⟩ 2 true f3).2 ≠
      some (centroidOf (growIteration caps3 ⟨0, 0, 0⟩ f3).2) := by
  have hc1 : centroidOf (growIteration caps3 ⟨0, 0, 0⟩ f3).2 = (⟨1, 0, 0⟩ : Vec3) := by
    rw [caps3_ring1]
    exact centroid_ring1
  refine ⟨?_, ?_, hc1, ?_⟩
  · rw [caps3_loop]
  · rw [caps3_loop]
  · rw [caps3_loop, hc1]
    intro h
    injection h with h'
    have := congrArg Vec3.x h'
    norm_num at this

/-- Witness for the amended C3 at the stopping ring of the three-vertex
path mesh: one loop step from ring 1's field stops and reports ring 2's
centroid while restoring the input field. -/
theorem grow_target_distance_stop_witness :
    growPoseLoop caps3 none ⟨0, 0, 0⟩ 2 1 7 (Function.update f3 1 1) true =
      (Function.update f3 1 1,
        some (centroidOf (growIteration caps3 ⟨0, 0, 0⟩ (Function.update f3 1 1)).2)) := by
  have hcnt : (growIteration caps3 ⟨0, 0, 0⟩ (Function.update f3 1 1)).2.pos_count ≠ 0 := by
    rw [caps3_ring2]
    norm_num
  have hge : (2 : ℝ) ≤
      dist3 (centroidOf (growIteration caps3 ⟨0, 0, 0⟩ (Function.update f3 1 1)).2) ⟨0, 0, 0⟩ := by
    rw [caps3_ring2, centroid_ring2, dist3_ring2]
    norm_num
  exact (grow_target_distance_stop caps3 ⟨0, 0, 0⟩ 2 7 0 (Function.update f3 1 1) hcnt).2 hge

theorem le_foldl_max (l : List ℝ) : ∀ a : ℝ, a ≤ l.foldl max a := by
  induction l with
  | nil => intro a; simp
  | cons x l ih =>
      intro a
      rw [List.foldl_cons]
      exact le_trans (le_max_left a x) (ih (max a x))

theorem foldl_max_le (l : List ℝ) : ∀ a b : ℝ, a ≤ b → (∀ x ∈ l, x ≤ b) →
    l.foldl max a ≤ b := by
  induction l with
  | nil => intro a b hab _; simpa using hab
  | cons x l ih =>
      intro a b hab hall
      rw [List.foldl_cons]
      exact ih (max a x) b (max_le hab (hall x (List.mem_cons_self _ _)))
        fun y hy => hall y (List.mem_cons_of_mem _ hy)

theorem neighborMax_nonneg (caps : ChainCaps) (prev : Nat → ℝ) (v : Nat) :
    0 ≤ neighborMax caps prev v := le_foldl_max _ 0

theorem neighborMax_le_one (caps : ChainCaps) (prev : Nat → ℝ) (v : Nat)
    (h : ∀ w, prev w ≤ 1) : neighborMax caps prev v ≤ 1 := by
  apply foldl_max_le _ 0 1 (by norm_num)
  intro x hx
  rcases List.mem_map.mp hx with ⟨w, _, rfl⟩
  exact h w

theorem growIteration_bounds (caps : ChainCaps) (target : Vec3) (prev : Nat → ℝ)
    (h : ∀ w, 0 ≤ prev w ∧ prev w ≤ 1) :
    ∀ v, 0 ≤ (growIteration caps target prev).1 v ∧ (growIteration caps target prev).1 v ≤ 1 := by
  intro v
  unfold growIteration
  rw [growFold_apply]
  by_cases hc : v ∈ visibleVerts caps ∧ neighborMax caps prev v > prev v
  · rw [if_pos hc]
    exact ⟨neighborMax_nonneg caps prev v, neighborMax_le_one caps prev v fun w => (h w).2⟩
  · rw [if_neg hc]
    exact h v

theorem growPoseLoop_bounds (caps : ChainCaps) (poseOrigin : Option Vec3) (target : Vec3)
    (maxLen : ℝ) :
    ∀ (fuel : Nat) (prevLen : ℝ) (field : Nat → ℝ) (wantOrigin : Bool),
      (∀ w, 0 ≤ field w ∧ field w ≤ 1) →
      ∀ v, 0 ≤ (growPoseLoop caps poseOrigin target maxLen fuel prevLen field wantOrigin).1 v ∧
        (growPoseLoop caps poseOrigin target maxLen fuel prevLen field wantOrigin).1 v ≤ 1 := by
  intro fuel
  induction fuel with
  | zero => intro prevLen field wantOrigin h v; exact h v
  | succ fuel ih =>
      intro prevLen field wantOrigin h v
      simp only [growPoseLoop]
      split
      · split
        · split
          · exact ih _ _ wantOrigin (growIteration_bounds caps target field h) v
          · exact h v
        · split
          · exact ih _ _ wantOrigin (growIteration_bounds caps target field h) v
          · exact h v
      · exact growIteration_bounds caps target field h v

theorem grow_pose_factor_bounds (caps : ChainCaps) (poseOrigin : Option Vec3) (target : Vec3)
    (maxLen : ℝ) (wantOrigin : Bool) (field : Nat → ℝ)
    (h : ∀ w, 0 ≤ field w ∧ field w ≤ 1) :
    ∀ v, 0 ≤ (grow_pose_factor caps poseOrigin target maxLen wantOrigin field).1 v ∧
      (grow_pose_factor caps poseOrigin target maxLen wantOrigin field).1 v ≤ 1 := by
  unfold grow_pose_factor
  exact growPoseLoop_bounds caps poseOrigin target maxLen caps.growFuel caps.fltMax field
    wantOrigin h

theorem floodStep_factor (caps : ChainCaps) (pic : Vec3) (radius : ℝ) (hasFactor : Bool)
    (st : FloodAcc) (ev : Nat × Bool) :
    (topology_floodfill_step caps pic radius hasFactor st ev).factor =
      if hasFactor then Function.update st.factor ev.1 1 else st.factor := by
  simp only [topology_floodfill_step]
  split
  · rfl
  · split
    · rfl
    · rfl

theorem floodFold_factor_bounds (caps : ChainCaps) (pic : Vec3) (radius : ℝ)
    (hasFactor : Bool) :
    ∀ (evs : List (Nat × Bool)) (st : FloodAcc),
      (∀ w, 0 ≤ st.factor w ∧ st.factor w ≤ 1) →
      ∀ w, 0 ≤ (evs.foldl (topology_floodfill_step caps pic radius hasFactor) st).factor w ∧
        (evs.foldl (topology_floodfill_step caps pic radius hasFactor) st).factor w ≤ 1 := by
  intro evs
  induction evs with
  | nil => intro st h w; exact h w
  | cons ev evs ih =>
      intro st h w
      rw [List.foldl_cons]
      apply ih
      intro w'
      rw [floodStep_factor]
      by_cases hf : hasFactor
      · rw [if_pos hf]
        by_cases hw : w' = ev.1
        · subst hw
          rw [Function.update_same]
          norm_num
        · rw [Function.update_noteq hw]
          exact h w'
      · rw [if_neg hf]
        exact h w'

theorem calc_pose_data_factor_bounds (caps : ChainCaps) (loc : Vec3)
    (radius pose_offset : ℝ) (hasFactor : Bool) (factor : Nat → ℝ)
    (h : ∀ w, 0 ≤ factor w ∧ factor w ≤ 1) :
    ∀ w, 0 ≤ (calc_pose_data caps loc radius pose_offset hasFactor factor).2 w ∧
      (calc_pose_data caps loc radius pose_offset hasFactor factor).2 w ≤ 1 := by
  intro w
  simp only [calc_pose_data]
  split
  · exact grow_pose_factor_bounds caps _ _ 0 false _
      (floodFold_factor_bounds caps loc radius hasFactor caps.floodEvents _ h) w
  · exact floodFold_factor_bounds caps loc radius hasFactor caps.floodEvents _ h w

theorem topoTail_sum (caps : ChainCaps) (maxLen : ℝ) :
    ∀ (k : Nat) (target : Vec3) (g : Nat → ℝ),
      (∀ w, 0 ≤ g w ∧ g w ≤ 1) →
      ∀ v, g v + ((topoTail caps maxLen k target g).map (fun s => s.weights v)).sum ≤ 1 := by
  intro k
  induction k with
  | zero =>
      intro target g h v
      simp only [topoTail, List.map_nil, List.sum_nil, add_zero]
      exact (h v).2
  | succ k ih =>
      intro target g h v
      simp only [topoTail, List.map_cons, List.sum_cons]
      have hg' := grow_pose_factor_bounds caps none target maxLen true g h
      have hih := ih ((grow_pose_factor caps none target maxLen true g).2.getD 0)
        (grow_pose_factor caps none target maxLen true g).1 hg' v
      show g v + ((grow_pose_factor caps none target maxLen true g).1 v - g v +
        ((topoTail caps maxLen k ((grow_pose_factor caps none target maxLen true g).2.getD 0)
          (grow_pose_factor caps none target maxLen true g).1).map
            (fun s => s.weights v)).sum) ≤ 1
      linarith [hih]

theorem headsInit_weights (v : Nat) :
    ∀ (p : Vec3) (l : List IKChainSegment),
      (headsInit p l).map (fun s => s.weights v) = l.map (fun s => s.weights v) := by
  intro p l
  induction l generalizing p with
  | nil => rfl
  | cons s rest ih =>
      simp only [headsInit, List.map_cons]
      rw [ih]

theorem headsInit_length : ∀ (p : Vec3) (l : List IKChainSegment),
    (headsInit p l).length = l.length := by
  intro p l
  induction l generalizing p with
  | nil => rfl
  | cons s rest ih => simp only [headsInit, List.length_cons, ih]

theorem topoTail_length (caps : ChainCaps) (maxLen : ℝ) :
    ∀ (k : Nat) (target : Vec3) (g : Nat → ℝ),
      (topoTail caps maxLen k target g).length = k := by
  intro k
  induction k with
  | zero => intro target g; rfl
  | succ k ih => intro target g; simp only [topoTail, List.length_cons, ih]

/-- C5: for every chain built by `pose_ik_chain_init_topology`, the per-vertex
sum of segment weights is at most 1 (hence at most `1 + ε` for any `ε ≥ 0`):
segment 0 holds the grown field, each later segment the difference of
successive cumulative fields, so the sum telescopes to the final grown
factor, which stays in `[0, 1]`. -/
theorem topology_weight_disjointness (caps : ChainCaps) (brush : Brush) (loc : Vec3)
    (radius : ℝ)
    (_h2 : 2 ≤ (pose_ik_chain_init_topology caps brush loc radius).segments.length) (v : Nat) :
    (((pose_ik_chain_init_topology caps brush loc radius).segments).map
      (fun s => s.weights v)).sum ≤ 1 := by
  have hinit : ∀ w, 0 ≤ Function.update (fun _ => (0 : ℝ)) caps.nearestVert 1 w ∧
      Function.update (fun _ => (0 : ℝ)) caps.nearestVert 1 w ≤ 1 := by
    intro w
    by_cases hw : w = caps.nearestVert
    · subst hw
      rw [Function.update_same]
      norm_num
    · rw [Function.update_noteq hw]
      norm_num
  have hg0 := calc_pose_data_factor_bounds caps loc radius brush.pose_offset true
    (Function.update (fun _ => 0) caps.nearestVert 1) hinit
  simp only [pose_ik_chain_init_topology]
  rw [headsInit_weights]
  simp only [List.map_cons, List.sum_cons]
  have := topoTail_sum caps (radius * (1 + brush.pose_offset))
    (brush_num_effective_segments brush - 1)
    (calc_pose_data caps loc radius brush.pose_offset true
      (Function.update (fun _ => 0) caps.nearestVert 1)).1
    (calc_pose_data caps loc radius brush.pose_offset true
      (Function.update (fun _ => 0) caps.nearestVert 1)).2 hg0 v
  exact this

/-- Witness for C5: the one-vertex mesh with a two-segment rotate/twist
brush yields a two-segment chain whose per-vertex weight sums stay at most
1. -/
theorem topology_weight_disjointness_witness :
    2 ≤ (pose_ik_chain_init_topology caps1 brushRT2 0 1).segments.length ∧
    (((pose_ik_chain_init_topology caps1 brushRT2 0 1).segments).map
      (fun s => s.weights 0)).sum ≤ 1 :=
  ⟨by decide, topology_weight_disjointness caps1 brushRT2 0 1 (by decide) 0⟩

/-- C7: `brush_num_effective_segments` returns 1 for the scale-translate and
squash-stretch deform types regardless of the configured count, and the
configured `pose_ik_segments` otherwise; consequently topology chain
construction builds exactly one segment in those two modes (silently — the
embedding is a total function with no error path). -/
theorem effective_segments_downgrade (brush : Brush) (caps : ChainCaps) (loc : Vec3)
    (radius : ℝ) :
    ((brush.pose_deform_type = BrushPoseDeformType.scale_traslate ∨
        brush.pose_deform_type = BrushPoseDeformType.squash_stretch) →
      brush_num_effective_segments brush = 1 ∧
        (pose_ik_chain_init_topology caps brush loc radius).segments.length = 1) ∧
    (brush.pose_deform_type = BrushPoseDeformType.rotate_twist →
      brush_num_effective_segments brush = brush.pose_ik_segments) := by
  constructor
  · intro h
    have h1 : brush_num_effective_segments brush = 1 := by
      unfold brush_num_effective_segments
      rw [if_pos h]
    refine ⟨h1, ?_⟩
    simp only [pose_ik_chain_init_topology]
    rw [headsInit_length]
    simp only [List.length_cons, topoTail_length, h1]
  · intro h
    unfold brush_num_effective_segments
    rw [if_neg (by simp [h])]

/-- Witness for C7: a scale-translate brush configured for seven segments
yields a one-segment topology chain. -/
theorem effective_segments_downgrade_witness :
    (brushST.pose_deform_type = BrushPoseDeformType.scale_traslate ∨
      brushST.pose_deform_type = BrushPoseDeformType.squash_stretch) ∧
    brush_num_effective_segments brushST = 1 ∧
    (pose_ik_chain_init_topology caps1 brushST 0 1).segments.length = 1 :=
  ⟨Or.inl rfl, (effective_segments_downgrade brushST caps1 0 1).1 (Or.inl rfl)⟩

theorem dot3_sub_right (a b c : Vec3) : dot3 a (b - c) = dot3 a b - dot3 a c := by
  simp [dot3]
  ring

/-- C8: when the grab target lies at signed distance `d` along the first
segment's normalized reference axis from its initial head, with `d < len`,
`calc_squash_stretch_deform` stores on every segment the scale
`(sqrt(1 / s), sqrt(1 / s), s)` with `s = len / (len - d)`. -/
theorem squash_stretch_scale_law (cache : StrokeCache)
    (hnd : (cache.pose_ik_chain.segments.headI).initial_head -
      (cache.pose_ik_chain.segments.headI).initial_orig ≠ 0)
    (_hd : squashAxisDist cache < (cache.pose_ik_chain.segments.headI).len) :
    ∀ s ∈ (calc_squash_stretch_deform cache).segments,
      s.scale = ⟨Real.sqrt (1 / squashScaleSpec cache), Real.sqrt (1 / squashScaleSpec cache),
        squashScaleSpec cache⟩ := by
  have hXY : distSignedToPlane (cache.location + cache.grab_delta)
      (planeFromPointNormal (cache.pose_ik_chain.segments.headI).initial_head
        (normalize3 ((cache.pose_ik_chain.segments.headI).initial_head -
          (cache.pose_ik_chain.segments.headI).initial_orig))) = squashAxisDist cache := by
    unfold distSignedToPlane planeFromPointNormal squashAxisDist
    rw [norm3_normalize3 hnd, div_one, dot3_sub_right]
    ring
  have hkey : calc_scale_from_grab_delta cache (cache.location + cache.grab_delta) =
      squashScaleSpec cache := by
    unfold calc_scale_from_grab_delta squashScaleSpec
    rw [hXY]
  intro s hs
  unfold calc_squash_stretch_deform solve_scale_chain at hs
  simp only [List.mem_map] at hs
  rcases hs with ⟨s0, _, rfl⟩
  rw [hkey]

/-- Witness for C8 at the concrete stroke cache `cache8` (grab target half a
unit beyond the initial head along the reference axis). -/
theorem squash_stretch_scale_law_witness :
    squashAxisDist cache8 < (cache8.pose_ik_chain.segments.headI).len ∧
    ((calc_squash_stretch_deform cache8).segments.headI).scale =
      ⟨Real.sqrt (1 / squashScaleSpec cache8), Real.sqrt (1 / squashScaleSpec cache8),
        squashScaleSpec cache8⟩ := by
  have hseg : cache8.pose_ik_chain.segments.headI = cseg := rfl
  have hnd : (cache8.pose_ik_chain.segments.headI).initial_head -
      (cache8.pose_ik_chain.segments.headI).initial_orig ≠ 0 := by
    rw [hseg]
    intro h
    have := congrArg Vec3.z h
    simp [cseg, emptySegment] at this
  have hn : normalize3 ((cache8.pose_ik_chain.segments.headI).initial_head -
      (cache8.pose_ik_chain.segments.headI).initial_orig) = ⟨0, 0, 1⟩ := by
    rw [hseg]
    have hdot : dot3 (cseg.initial_head - cseg.initial_orig)
        (cseg.initial_head - cseg.initial_orig) = 1 := by
      simp [dot3, cseg, emptySegment]
    unfold normalize3 norm3
    rw [hdot, Real.sqrt_one]
    ext <;> simp [cseg, emptySegment]
  have haxis : squashAxisDist cache8 < (cache8.pose_ik_chain.segments.headI).len := by
    unfold squashAxisDist
    rw [hn, hseg]
    have : dot3 (⟨0, 0, 1⟩ : Vec3)
        (cache8.location + cache8.grab_delta - cseg.initial_head) = 1 / 2 := by
      simp [dot3, cache8, cseg, emptySegment]
    rw [this]
    show (1 : ℝ) / 2 < cseg.len
    simp [cseg, emptySegment]
    norm_num
  exact ⟨haxis,
    squash_stretch_scale_law cache8 hnd haxis
      ((calc_squash_stretch_deform cache8).segments.headI) (List.mem_cons_self _ _)⟩

/-- C10: `do_pose_brush` returns before solving, before rebuilding any
transform matrix, and before touching any position whenever the stroke
cache's mirror symmetry pass is nonzero: the whole pose state — chain
segment state included — is returned unchanged. -/
theorem pose_brush_symmetry_pass_noop (dcaps : DeformCaps) (brush : Brush) (st : PoseState)
    (h : st.cache.mirror_symmetry_pass ≠ 0) : do_pose_brush dcaps brush st = st := by
  unfold do_pose_brush
  rw [if_pos h]

/-- Witness for C10 at a concrete pose state in mirror symmetry pass 1. -/
theorem pose_brush_symmetry_pass_noop_witness :
    st0.cache.mirror_symmetry_pass ≠ 0 ∧ do_pose_brush dcaps0 brushRT2 st0 = st0 :=
  ⟨by decide, pose_brush_symmetry_pass_noop dcaps0 brushRT2 st0 (by decide)⟩

end











